import Mathlib

/-!
Verification of the Canary persistence subsystem (io/iomapserialize.cpp)
together with the decay scheduler interface.

The byte stream is modelled as `List Nat` with every entry a byte value;
multi-byte scalars are little-endian, as in `PropStream::read<T>` /
`PropWriteStream::write<T>` which `memcpy` the underlying representation.
-/

namespace CanaryPersist

/-- `PropStream::read<uint8_t>`: one byte, cursor advances; fails with the
cursor unchanged when the stream is exhausted. -/
def read8 : List Nat → Option (Nat × List Nat)
  | [] => none
  | b :: rest => some (b, rest)

/-- `PropStream::read<uint16_t>`: two bytes, little-endian; fails with the
cursor unchanged when fewer than two bytes remain. -/
def read16 : List Nat → Option (Nat × List Nat)
  | b0 :: b1 :: rest => some (b0 + 256 * b1, rest)
  | _ => none

/-- `PropStream::read<uint32_t>`: four bytes, little-endian. -/
def read32 : List Nat → Option (Nat × List Nat)
  | b0 :: b1 :: b2 :: b3 :: rest =>
      some (b0 + 256 * (b1 + 256 * (b2 + 256 * b3)), rest)
  | _ => none

/-- `PropWriteStream::write<uint8_t>`. -/
def write8 (v : Nat) : List Nat := [v % 256]

/-- `PropWriteStream::write<uint16_t>`, little-endian bytes of `v` as a u16. -/
def write16 (v : Nat) : List Nat := [v % 256, v / 256 % 256]

/-- `PropWriteStream::write<uint32_t>`, little-endian bytes of `v` as a u32. -/
def write32 (v : Nat) : List Nat :=
  [v % 256, v / 256 % 256, v / 65536 % 256, v / 16777216 % 256]

theorem read16_write16 (v : Nat) (r : List Nat) :
    read16 (write16 v ++ r) = some (v % 65536, r) := by
  simp only [write16, read16, List.cons_append, List.nil_append]
  congr 1
  congr 1
  omega

theorem read32_write32 (v : Nat) (r : List Nat) :
    read32 (write32 v ++ r) = some (v % 4294967296, r) := by
  simp only [write32, read32, List.cons_append, List.nil_append]
  congr 1
  congr 1
  omega

theorem read16_length {s r : List Nat} {v : Nat} (h : read16 s = some (v, r)) :
    r.length + 2 = s.length := by
  match s with
  | [] => simp [read16] at h
  | [_] => simp [read16] at h
  | b0 :: b1 :: rest => simp [read16] at h; simp [h.2]

theorem read32_length {s r : List Nat} {v : Nat} (h : read32 s = some (v, r)) :
    r.length + 4 = s.length := by
  match s with
  | [] => simp [read32] at h
  | [_] => simp [read32] at h
  | [_, _] => simp [read32] at h
  | [_, _, _] => simp [read32] at h
  | _ :: _ :: _ :: _ :: rest => simp [read32] at h; simp [h.2]

/-- The item-type registry entry (`ItemType` in items.hpp, consumed by
iomapserialize.cpp through `Item::items[id]`).  `valid` models whether
`Item::CreateItem(id)` yields a non-null item for this id. -/
structure ItemType where
  valid : Bool
  moveable : Bool
  isCarpet : Bool
  isBed : Bool
  isDoor : Bool
  isContainer : Bool
  m_transformOnUse : Nat
  isSavedToHouses : Bool
deriving DecidableEq

/-- The read-only registry `Item::items`. -/
abbrev Reg := Nat → ItemType

/-- An item node: type id, generic attribute set (tag, value pairs in
storage order), and the container payload (`some children` exactly when the
item exposes Container capability). -/
inductive Item where
  | mk (id : Nat) (attrs : List (Nat × Nat)) (cont : Option (List Item)) : Item

def Item.id : Item → Nat
  | .mk i _ _ => i

def Item.attrs : Item → List (Nat × Nat)
  | .mk _ a _ => a

def Item.cont : Item → Option (List Item)
  | .mk _ _ c => c

/-- `ATTR_CONTAINER_ITEMS`: the container marker byte `saveItem` writes
before the child count ("Hack our way into the attributes"). -/
def ATTR_CONTAINER_ITEMS : Nat := 9

/-- Modelled from the spec: the attribute tag under which a bed item stores
its sleeper guid (the value `BedItem::getSleeper()` reads back); the
attribute codec itself is external to iomapserialize.cpp. -/
def ATTR_SLEEPERGUID : Nat := 20

/-- `uint32_t NEW_BEDS_START_ID = 30000;` (iomapserialize.cpp). -/
def NEW_BEDS_START_ID : Nat := 30000

/-- Modelled from the spec: `Item::serializeAttr` — the attribute blob is
opaque to the snapshot component; each attribute is written as its tag byte
followed by its payload (modelled as a single value byte). -/
def serAttrs : List (Nat × Nat) → List Nat
  | [] => []
  | (t, v) :: rest => t :: v :: serAttrs rest

mutual
/-- `IOMapSerialize::saveItem` minus the leading id: attribute blob, then
(for containers) the `ATTR_CONTAINER_ITEMS` marker, a u32 child count and
every child encoded in reverse of live order, then the unconditional
0x00 terminator. -/
def saveItemBody : Item → List Nat
  | .mk _ attrs cont =>
    serAttrs attrs ++
      (match cont with
       | some cs => ATTR_CONTAINER_ITEMS :: (write32 cs.length ++ saveItemsRev cs)
       | none => []) ++ [0]

/-- The children loop of `saveItem`: iterate `getReversedItems`, i.e. encode
the list back to front. -/
def saveItemsRev : List Item → List Nat
  | [] => []
  | c :: cs => saveItemsRev cs ++ (write16 c.id ++ saveItemBody c)
end

/-- `IOMapSerialize::saveItem`: type id (u16) followed by the body. -/
def saveItem (it : Item) : List Nat := write16 it.id ++ saveItemBody it

/-- Encode a list of items front to back (helper for reasoning and for
`saveTile`, whose forward_list is already in reversed tile order). -/
def saveItems : List Item → List Nat
  | [] => []
  | it :: its => saveItem it ++ saveItems its

theorem saveItems_append (xs ys : List Item) :
    saveItems (xs ++ ys) = saveItems xs ++ saveItems ys := by
  induction xs with
  | nil => rfl
  | cons x xs ih => simp [saveItems, ih]

theorem saveItemsRev_eq_saveItems_reverse (cs : List Item) :
    saveItemsRev cs = saveItems cs.reverse := by
  induction cs with
  | nil => rfl
  | cons c cs ih =>
      simp [saveItemsRev, ih, List.reverse_cons, saveItems_append, saveItems, saveItem]

/-- Modelled from the spec: the `ATTR_CONTAINER_ITEMS` arm of `readAttr` —
accepted only by `Container::readAttr` (a container item), which reads the
u32 child count (`serializationCount`) and ends attribute reading;
`Item::readAttr` reports a read error for it. -/
def readContCount (isCont : Bool) (rest : List Nat) (acc : List (Nat × Nat)) :
    Bool × List (Nat × Nat) × Nat × List Nat :=
  if isCont then
    match read32 rest with
    | some (cnt, rest2) => (true, acc.reverse, cnt, rest2)
    | none => (false, acc.reverse, 0, rest)
  else (false, acc.reverse, 0, rest)

/-- Modelled from the spec: `Item::unserializeAttr` — loop reading one
attribute tag byte at a time.  Stream exhaustion at a tag read ends the loop
successfully; a 0x00 tag is the end-of-attributes marker; the
`ATTR_CONTAINER_ITEMS` tag is handled by `readContCount`; any other tag
reads its value payload (modelled as one byte), failing with the cursor
where it stopped when the payload is missing.
Returns (success, attributes read so far, serializationCount, rest). -/
def unserializeAttrLoop (isCont : Bool) :
    List Nat → List (Nat × Nat) → Bool × List (Nat × Nat) × Nat × List Nat
  | [], acc => (true, acc.reverse, 0, [])
  | 0 :: rest, acc => (true, acc.reverse, 0, rest)
  | t :: rest, acc =>
    if t = ATTR_CONTAINER_ITEMS then readContCount isCont rest acc
    else
      match rest with
      | [] => (false, acc.reverse, 0, [])
      | v :: rest2 => unserializeAttrLoop isCont rest2 ((t, v) :: acc)

theorem readContCount_length (isCont : Bool) (rest : List Nat)
    (acc : List (Nat × Nat)) :
    (readContCount isCont rest acc).2.2.2.length ≤ rest.length := by
  unfold readContCount
  match isCont with
  | false => simp
  | true =>
      match hr : read32 rest with
      | none => simp [hr]
      | some (cnt, rest2) =>
          have := read32_length hr
          simp [hr]
          omega

theorem unserializeAttrLoop_length (isCont : Bool) (s : List Nat)
    (acc : List (Nat × Nat)) :
    (unserializeAttrLoop isCont s acc).2.2.2.length ≤ s.length := by
  induction s, acc using unserializeAttrLoop.induct isCont with
  | case1 acc => simp [unserializeAttrLoop]
  | case2 rest acc => simp [unserializeAttrLoop]
  | case3 rest acc h0 =>
      rw [unserializeAttrLoop.eq_def]
      have := readContCount_length isCont rest acc
      simp [ATTR_CONTAINER_ITEMS]
      omega
  | case4 t acc h0 hc =>
      have ht0 : ¬t = 0 := fun h => h0 h
      simp [unserializeAttrLoop, hc, ht0]
  | case5 t acc h0 hc v rest2 ih =>
      simp only [unserializeAttrLoop, if_neg hc]
      calc (unserializeAttrLoop isCont rest2 ((t, v) :: acc)).2.2.2.length
          ≤ rest2.length := ih
        _ ≤ (t :: v :: rest2).length := by simp; omega

/-- Modelled from the spec: setting one attribute on the item's attribute
storage — an existing entry with the same tag is overwritten in place,
otherwise the entry is appended. -/
def setAttr : List (Nat × Nat) → Nat → Nat → List (Nat × Nat)
  | [], t, v => [(t, v)]
  | (t2, v2) :: rest, t, v =>
    if t2 = t then (t, v) :: rest else (t2, v2) :: setAttr rest t v

/-- Apply a list of decoded attributes to an item's existing storage, in
decode order (each `readAttr` stores the attribute it just read). -/
def applyAttrs (base : List (Nat × Nat)) (read : List (Nat × Nat)) :
    List (Nat × Nat) :=
  read.foldl (fun acc p => setAttr acc p.1 p.2) base

/-- Tag membership in an attribute list. -/
def keyMem (t : Nat) : List (Nat × Nat) → Bool
  | [] => false
  | (t2, _) :: rest => t == t2 || keyMem t rest

/-- Modelled from the spec: `BedItem::getSleeper` reads the stored sleeper
guid attribute (0 when absent); the last stored value wins. -/
def getAttrVal (attrs : List (Nat × Nat)) (t : Nat) : Option Nat :=
  attrs.foldl (fun acc p => if p.1 = t then some p.2 else acc) none

def getSleeper (attrs : List (Nat × Nat)) : Nat :=
  (getAttrVal attrs ATTR_SLEEPERGUID).getD 0

/-- Well-formed attribute storage: byte-sized tags and values, no tag equal
to the end marker or the container marker, and no duplicate tags. -/
def wfAttrs : List (Nat × Nat) → Bool
  | [] => true
  | (t, v) :: rest =>
    !(t == 0) && !(t == ATTR_CONTAINER_ITEMS) && decide (t < 256) &&
      decide (v < 256) && !(keyMem t rest) && wfAttrs rest

theorem setAttr_of_not_keyMem {t : Nat} {acc : List (Nat × Nat)}
    (h : keyMem t acc = false) (v : Nat) : setAttr acc t v = acc ++ [(t, v)] := by
  induction acc with
  | nil => rfl
  | cons p rest ih =>
      match p with
      | (t2, v2) =>
          simp only [keyMem, Bool.or_eq_false_iff, beq_eq_false_iff_ne, ne_eq] at h
          simp only [setAttr, List.cons_append]
          rw [if_neg (fun hh : t2 = t => h.1 hh.symm), ih h.2]

theorem keyMem_false_iff (t : Nat) (l : List (Nat × Nat)) :
    keyMem t l = false ↔ ∀ p ∈ l, p.1 ≠ t := by
  induction l with
  | nil => simp [keyMem]
  | cons p rest ih =>
      match p with
      | (t2, v2) =>
          simp only [keyMem, Bool.or_eq_false_iff, beq_eq_false_iff_ne, ne_eq, ih]
          constructor
          · rintro ⟨h1, h2⟩ q hq
            rcases List.mem_cons.mp hq with hh | hh
            · rw [hh]; exact fun hc => h1 hc.symm
            · exact h2 q hh
          · intro h
            refine ⟨fun hh => h (t2, v2) (List.mem_cons_self _ _) hh.symm, ?_⟩
            intro q hq
            exact h q (List.mem_cons_of_mem _ hq)

theorem keyMem_append (t : Nat) (a b : List (Nat × Nat)) :
    keyMem t (a ++ b) = (keyMem t a || keyMem t b) := by
  induction a with
  | nil => simp [keyMem]
  | cons p rest ih =>
      match p with
      | (t2, v2) => simp [keyMem, ih, Bool.or_assoc]

theorem applyAttrs_append_of_disjoint :
    ∀ (read acc : List (Nat × Nat)),
      (∀ p ∈ read, keyMem p.1 acc = false) →
      wfAttrs read = true →
      applyAttrs acc read = acc ++ read := by
  intro read
  induction read with
  | nil => intro acc _ _; simp [applyAttrs]
  | cons p rest ih =>
      intro acc hdisj hwf
      match p with
      | (t, v) =>
          simp only [wfAttrs, Bool.and_eq_true, Bool.not_eq_true',
            beq_eq_false_iff_ne, ne_eq, decide_eq_true_eq] at hwf
          have hk : keyMem t acc = false := hdisj (t, v) (by simp)
          have step : applyAttrs acc ((t, v) :: rest) =
              applyAttrs (acc ++ [(t, v)]) rest := by
            simp [applyAttrs, setAttr_of_not_keyMem hk]
          rw [step]
          have hrest : keyMem t rest = false := hwf.1.2
          have hdisj2 : ∀ q ∈ rest, keyMem q.1 (acc ++ [(t, v)]) = false := by
            intro q hq
            have h1 : keyMem q.1 acc = false := hdisj q (by simp [hq])
            have h2 : q.1 ≠ t := (keyMem_false_iff t rest).mp hrest q hq
            rw [keyMem_append, h1]
            simp [keyMem, h2]
          rw [ih (acc ++ [(t, v)]) hdisj2 hwf.2]
          simp

/-- On a fresh (empty-attribute) item, decoding a well-formed attribute list
stores it back exactly. -/
theorem applyAttrs_nil (read : List (Nat × Nat)) (hwf : wfAttrs read = true) :
    applyAttrs [] read = read := by
  have := applyAttrs_append_of_disjoint read [] (by intro p _; rfl) hwf
  simpa using this

theorem unserializeAttrLoop_step {t : Nat} (ht0 : ¬t = 0)
    (ht9 : ¬t = ATTR_CONTAINER_ITEMS) (isCont : Bool) (v : Nat)
    (tail : List Nat) (acc : List (Nat × Nat)) :
    unserializeAttrLoop isCont (t :: v :: tail) acc =
      unserializeAttrLoop isCont tail ((t, v) :: acc) := by
  simp [unserializeAttrLoop, ht0, ht9]

theorem unserializeAttrLoop_marker (isCont : Bool) (tail : List Nat)
    (acc : List (Nat × Nat)) :
    unserializeAttrLoop isCont (ATTR_CONTAINER_ITEMS :: tail) acc =
      readContCount isCont tail acc := by
  rw [unserializeAttrLoop.eq_def]
  simp [ATTR_CONTAINER_ITEMS]

theorem unser_ser_term (isCont : Bool) :
    ∀ (attrs : List (Nat × Nat)), wfAttrs attrs = true →
      ∀ (r : List Nat) (acc : List (Nat × Nat)),
        unserializeAttrLoop isCont (serAttrs attrs ++ 0 :: r) acc =
          (true, acc.reverse ++ attrs, 0, r) := by
  intro attrs
  induction attrs with
  | nil => intro _ r acc; simp [serAttrs, unserializeAttrLoop]
  | cons p rest ih =>
      intro hwf r acc
      match p with
      | (t, v) =>
          simp only [wfAttrs, Bool.and_eq_true, Bool.not_eq_true',
            beq_eq_false_iff_ne, ne_eq, decide_eq_true_eq] at hwf
          have ht0 : ¬t = 0 := hwf.1.1.1.1.1
          have ht9 : ¬t = ATTR_CONTAINER_ITEMS := hwf.1.1.1.1.2
          simp only [serAttrs, List.cons_append]
          rw [unserializeAttrLoop_step ht0 ht9, ih hwf.2 r ((t, v) :: acc)]
          simp

theorem unser_ser_cont :
    ∀ (attrs : List (Nat × Nat)), wfAttrs attrs = true →
      ∀ (cnt : Nat) (r : List Nat) (acc : List (Nat × Nat)),
        unserializeAttrLoop true
            (serAttrs attrs ++ ATTR_CONTAINER_ITEMS :: (write32 cnt ++ r)) acc =
          (true, acc.reverse ++ attrs, cnt % 4294967296, r) := by
  intro attrs
  induction attrs with
  | nil =>
      intro _ cnt r acc
      simp only [serAttrs, List.nil_append]
      rw [unserializeAttrLoop_marker]
      simp [readContCount, read32_write32]
  | cons p rest ih =>
      intro hwf cnt r acc
      match p with
      | (t, v) =>
          simp only [wfAttrs, Bool.and_eq_true, Bool.not_eq_true',
            beq_eq_false_iff_ne, ne_eq, decide_eq_true_eq] at hwf
          have ht0 : ¬t = 0 := hwf.1.1.1.1.1
          have ht9 : ¬t = ATTR_CONTAINER_ITEMS := hwf.1.1.1.1.2
          simp only [serAttrs, List.cons_append]
          rw [unserializeAttrLoop_step ht0 ht9, ih hwf.2 cnt r ((t, v) :: acc)]
          simp

/-- Modelled from the spec: `Item::CreateItem(id)` — yields an item of the
given type (with Container capability exactly when the type has it), or
nothing when the id does not resolve to a creatable type. -/
def createItem (reg : Reg) (id : Nat) : Option Item :=
  if (reg id).valid then
    some (Item.mk id [] (if (reg id).isContainer then some [] else none))
  else none

/-- `read16` bundled with its consumption bound (for termination). -/
def read16B (s : List Nat) :
    Option (Nat × {r : List Nat // r.length + 2 = s.length}) :=
  match s with
  | b0 :: b1 :: rest => some (b0 + 256 * b1, ⟨rest, by simp⟩)
  | [] => none
  | [_] => none

theorem read16B_none {s : List Nat} (h : read16 s = none) : read16B s = none := by
  match s with
  | [] => rfl
  | [_] => rfl
  | b0 :: b1 :: rest => simp [read16] at h

theorem read16B_some {s r : List Nat} {v : Nat} (h : read16 s = some (v, r)) :
    read16B s = some (v, ⟨r, read16_length h⟩) := by
  match s with
  | [] => simp [read16] at h
  | [_] => simp [read16] at h
  | b0 :: b1 :: rest =>
      simp [read16] at h
      simp [read16B, h.1, h.2]

/-- `Item::unserializeAttr` on an item with empty pending state, bundled
with the consumption bound (for termination). -/
def unserializeAttrB (isCont : Bool) (s : List Nat) :
    Bool × List (Nat × Nat) × Nat × {r : List Nat // r.length ≤ s.length} :=
  match hu : unserializeAttrLoop isCont s [] with
  | (ok, attrs, cnt, r1) =>
      (ok, attrs, cnt, ⟨r1, by
        have := unserializeAttrLoop_length isCont s []
        rw [hu] at this
        simpa using this⟩)

theorem unserializeAttrB_eq (isCont : Bool) (s : List Nat)
    {ok : Bool} {attrs : List (Nat × Nat)} {cnt : Nat} {r1 : List Nat}
    (h : unserializeAttrLoop isCont s [] = (ok, attrs, cnt, r1)) :
    unserializeAttrB isCont s =
      (ok, attrs, cnt, ⟨r1, by
        have := unserializeAttrLoop_length isCont s []
        rw [h] at this
        simpa using this⟩) := by
  unfold unserializeAttrB
  split
  next ok2 attrs2 cnt2 r2 hu =>
    rw [h] at hu
    simp at hu
    obtain ⟨h1, h2, h3, h4⟩ := hu
    subst h1; subst h2; subst h3; subst h4
    rfl

/-- Decode failure payload: the stream position where decoding stopped and
the children already pushed into the enclosing container. -/
abbrev LoadFail := List Nat × List Item

mutual
/-- `IOMapSerialize::loadItem` after the id has been read, for a parent that
is not a root tile (the `iType.moveable || !tile || ...` condition is then
true, so a fresh item is always created): create the item, read its
attributes, recursively load container children, and hand the finished item
back to the caller (`parent->internalAddThing`).  A null `CreateItem`
result skips everything and reports success.  `.inl` is `return false`,
`.inr` is `return true` with the created item. -/
def loadFresh (reg : Reg) (id : Nat) (s : List Nat) :
    LoadFail ⊕ (Option Item × {r : List Nat // r.length ≤ s.length}) :=
  match createItem reg id with
  | none => .inr (none, ⟨s, Nat.le_refl _⟩)
  | some _ =>
    match unserializeAttrB (reg id).isContainer s with
    | (ok, attrs, cnt, ⟨r1, hr1⟩) =>
      if ok then
        if (reg id).isContainer then
          match loadContainerN reg cnt r1 [] with
          | .inl fail => .inl fail
          | .inr (cs, ⟨r2, hr2⟩) =>
              .inr (some (Item.mk id (applyAttrs [] attrs) (some cs)),
                ⟨r2, by omega⟩)
        else
          .inr (some (Item.mk id (applyAttrs [] attrs) none), ⟨r1, hr1⟩)
      else .inl (r1, [])
termination_by s.length + 1
decreasing_by
  omega

/-- `IOMapSerialize::loadContainer`: decode `serializationCount` children
(each pushed to the front of the container's child list by
`Container::internalAddThing`), then the mandatory 0x00 terminator. -/
def loadContainerN (reg : Reg) (cnt : Nat) (s : List Nat) (acc : List Item) :
    LoadFail ⊕ (List Item × {r : List Nat // r.length < s.length}) :=
  match cnt with
  | 0 =>
    match s with
    | [] => .inl ([], acc)
    | b :: rest =>
        if b = 0 then .inr (acc, ⟨rest, by simp⟩) else .inl (rest, acc)
  | n + 1 =>
    match read16B s with
    | none => .inl (s, acc)
    | some (id, ⟨r, hr⟩) =>
      match loadFresh reg id r with
      | .inl (rf, _) => .inl (rf, acc)
      | .inr (optIt, ⟨r2, hr2⟩) =>
        match loadContainerN reg n r2
            (match optIt with | some it => it :: acc | none => acc) with
        | .inl fail => .inl fail
        | .inr (cs, ⟨r3, hr3⟩) =>
            .inr (cs, ⟨r3, by omega⟩)
termination_by s.length
decreasing_by
  · omega
  · omega
end

/-- Proof-free view of `loadFresh`: (return value, created item, rest). -/
def loadFreshD (reg : Reg) (id : Nat) (s : List Nat) :
    Bool × Option Item × List Nat :=
  match loadFresh reg id s with
  | .inl (r, _) => (false, none, r)
  | .inr (it, r) => (true, it, r.val)

/-- Proof-free view of `loadContainerN`:
(return value, container children afterwards, rest). -/
def loadContainerND (reg : Reg) (cnt : Nat) (s : List Nat) (acc : List Item) :
    Bool × List Item × List Nat :=
  match loadContainerN reg cnt s acc with
  | .inl (r, part) => (false, part, r)
  | .inr (cs, r) => (true, cs, r.val)

/-- `IOMapSerialize::loadItem` for a parent container (the nested calls made
by `loadContainer`): read the id, then the fresh-item path. -/
def loadItemD (reg : Reg) (s : List Nat) : Bool × Option Item × List Nat :=
  match read16 s with
  | none => (false, none, s)
  | some (id, r) => loadFreshD reg id r

theorem loadContainerND_zero (reg : Reg) (b : Nat) (rest : List Nat)
    (acc : List Item) :
    loadContainerND reg 0 (b :: rest) acc =
      (if b = 0 then (true, acc, rest) else (false, acc, rest)) := by
  by_cases hb : b = 0 <;>
    simp [loadContainerND, loadContainerN, hb]

theorem loadContainerND_succ_readfail (reg : Reg) (n : Nat) (s : List Nat)
    (acc : List Item) (h16 : read16 s = none) :
    loadContainerND reg (n + 1) s acc = (false, acc, s) := by
  rw [loadContainerND, loadContainerN.eq_def]
  rw [read16B_none h16]

theorem loadContainerND_succ_childfail (reg : Reg) (n id : Nat)
    (s r rf : List Nat) (acc : List Item) (h16 : read16 s = some (id, r))
    (hf : loadFreshD reg id r = (false, none, rf)) :
    loadContainerND reg (n + 1) s acc = (false, acc, rf) := by
  rw [loadContainerND, loadContainerN.eq_def]
  rw [read16B_some h16]
  match hl : loadFresh reg id r with
  | .inl (r2, part) =>
      rw [loadFreshD, hl] at hf
      simp at hf
      simp [hl, hf]
  | .inr (optIt, r2) =>
      rw [loadFreshD, hl] at hf
      simp at hf

theorem loadContainerND_succ_childok (reg : Reg) (n id : Nat)
    (s r r2 : List Nat) (acc : List Item) (optIt : Option Item)
    (h16 : read16 s = some (id, r))
    (hf : loadFreshD reg id r = (true, optIt, r2)) :
    loadContainerND reg (n + 1) s acc =
      loadContainerND reg n r2
        (match optIt with | some it => it :: acc | none => acc) := by
  rw [loadContainerND, loadContainerN.eq_def]
  rw [read16B_some h16]
  match hl : loadFresh reg id r with
  | .inl (r3, part) =>
      rw [loadFreshD, hl] at hf
      simp at hf
  | .inr (optIt2, ⟨r3, hr3⟩) =>
      rw [loadFreshD, hl] at hf
      simp only [Prod.mk.injEq, true_and] at hf
      obtain ⟨h1, h2⟩ := hf
      subst h1
      subst h2
      simp only [hl]
      cases optIt2 with
      | none =>
          cases hrec : loadContainerN reg n r3 acc with
          | inl fail => simp [hrec, loadContainerND]
          | inr val => simp [hrec, loadContainerND]
      | some it =>
          cases hrec : loadContainerN reg n r3 (it :: acc) with
          | inl fail => simp [hrec, loadContainerND]
          | inr val => simp [hrec, loadContainerND]

theorem loadFreshD_invalid {reg : Reg} {id : Nat} (s : List Nat)
    (h : createItem reg id = none) : loadFreshD reg id s = (true, none, s) := by
  rw [loadFreshD, loadFresh.eq_def, h]

theorem loadFreshD_attrfail {reg : Reg} {id : Nat} {s r1 : List Nat}
    {it0 : Item} {attrs : List (Nat × Nat)} {cnt : Nat}
    (hc : createItem reg id = some it0)
    (hu : unserializeAttrLoop (reg id).isContainer s [] = (false, attrs, cnt, r1)) :
    loadFreshD reg id s = (false, none, r1) := by
  rw [loadFreshD, loadFresh.eq_def, hc, unserializeAttrB_eq _ _ hu]
  simp

theorem loadFreshD_plain {reg : Reg} {id : Nat} {s r1 : List Nat}
    {it0 : Item} {attrs : List (Nat × Nat)} {cnt : Nat}
    (hc : createItem reg id = some it0)
    (hcont : (reg id).isContainer = false)
    (hu : unserializeAttrLoop (reg id).isContainer s [] = (true, attrs, cnt, r1)) :
    loadFreshD reg id s =
      (true, some (Item.mk id (applyAttrs [] attrs) none), r1) := by
  rw [loadFreshD, loadFresh.eq_def, hc, unserializeAttrB_eq _ _ hu]
  simp [hcont]

theorem loadFreshD_cont_ok {reg : Reg} {id : Nat} {s r1 r2 : List Nat}
    {it0 : Item} {attrs : List (Nat × Nat)} {cnt : Nat} {cs : List Item}
    (hc : createItem reg id = some it0)
    (hcont : (reg id).isContainer = true)
    (hu : unserializeAttrLoop (reg id).isContainer s [] = (true, attrs, cnt, r1))
    (hcc : loadContainerND reg cnt r1 [] = (true, cs, r2)) :
    loadFreshD reg id s =
      (true, some (Item.mk id (applyAttrs [] attrs) (some cs)), r2) := by
  rw [loadFreshD, loadFresh.eq_def, hc, unserializeAttrB_eq _ _ hu]
  simp only [hcont, if_true, if_pos rfl]
  rw [loadContainerND] at hcc
  match hrec : loadContainerN reg cnt r1 [] with
  | .inl (r4, part) => rw [hrec] at hcc; simp at hcc
  | .inr (cs2, ⟨r4, hr4⟩) =>
      rw [hrec] at hcc
      simp at hcc
      obtain ⟨h1, h2⟩ := hcc
      subst h1
      subst h2
      rfl

theorem loadFreshD_cont_fail {reg : Reg} {id : Nat} {s r1 rf : List Nat}
    {it0 : Item} {attrs : List (Nat × Nat)} {cnt : Nat} {part : List Item}
    (hc : createItem reg id = some it0)
    (hcont : (reg id).isContainer = true)
    (hu : unserializeAttrLoop (reg id).isContainer s [] = (true, attrs, cnt, r1))
    (hcc : loadContainerND reg cnt r1 [] = (false, part, rf)) :
    loadFreshD reg id s = (false, none, rf) := by
  rw [loadFreshD, loadFresh.eq_def, hc, unserializeAttrB_eq _ _ hu]
  simp only [hcont, if_true, if_pos rfl]
  rw [loadContainerND] at hcc
  match hrec : loadContainerN reg cnt r1 [] with
  | .inl (r4, part2) =>
      rw [hrec] at hcc
      simp at hcc
      simp [hcc]
  | .inr (cs2, ⟨r4, hr4⟩) => rw [hrec] at hcc; simp at hcc

mutual
/-- Well-formed live item with respect to the registry: id fits a u16 and is
creatable, attributes well-formed, Container capability matching the type,
child count within u32, and all children well-formed. -/
def wfItem (reg : Reg) : Item → Bool
  | .mk id attrs cont =>
    decide (id < 65536) && (reg id).valid && wfAttrs attrs &&
      (match cont with
       | some cs =>
           (reg id).isContainer && decide (cs.length < 4294967296) &&
             wfItems reg cs
       | none => !(reg id).isContainer)

def wfItems (reg : Reg) : List Item → Bool
  | [] => true
  | c :: cs => wfItem reg c && wfItems reg cs
end

theorem wfItems_mem {reg : Reg} :
    ∀ {cs : List Item}, wfItems reg cs = true → ∀ c ∈ cs, wfItem reg c = true := by
  intro cs
  induction cs with
  | nil => intro _ c hc; simp at hc
  | cons d ds ih =>
      intro h c hc
      rw [wfItems] at h
      simp only [Bool.and_eq_true] at h
      rcases List.mem_cons.mp hc with hh | hh
      · rw [hh]; exact h.1
      · exact ih h.2 c hh

theorem loadContainerND_saveItems (reg : Reg) :
    ∀ (ys : List Item),
      (∀ y ∈ ys, y.id < 65536 ∧
        ∀ extra, loadFreshD reg y.id (saveItemBody y ++ extra) =
          (true, some y, extra)) →
      ∀ (acc : List Item) (extra : List Nat),
        loadContainerND reg ys.length (saveItems ys ++ 0 :: extra) acc =
          (true, ys.reverse ++ acc, extra) := by
  intro ys
  induction ys with
  | nil =>
      intro _ acc extra
      simp only [saveItems, List.nil_append, List.length_nil]
      rw [loadContainerND_zero]
      simp
  | cons y ys ih =>
      intro hys acc extra
      obtain ⟨hid, hrt⟩ := hys y (List.mem_cons_self _ _)
      have hstream : saveItems (y :: ys) ++ 0 :: extra =
          write16 y.id ++ (saveItemBody y ++ (saveItems ys ++ 0 :: extra)) := by
        simp [saveItems, saveItem, List.append_assoc]
      have h16 : read16 (saveItems (y :: ys) ++ 0 :: extra) =
          some (y.id, saveItemBody y ++ (saveItems ys ++ 0 :: extra)) := by
        rw [hstream, read16_write16, Nat.mod_eq_of_lt hid]
      rw [List.length_cons,
        loadContainerND_succ_childok reg ys.length y.id _ _ _ acc (some y) h16
          (hrt (saveItems ys ++ 0 :: extra))]
      rw [ih (fun z hz => hys z (List.mem_cons_of_mem _ hz)) (y :: acc) extra]
      simp

theorem loadFreshD_roundtrip (reg : Reg) :
    ∀ (n : Nat) (item : Item), sizeOf item ≤ n → wfItem reg item = true →
      ∀ extra, loadFreshD reg item.id (saveItemBody item ++ extra) =
        (true, some item, extra) := by
  intro n
  induction n with
  | zero =>
      intro item hsz
      match item with
      | .mk id attrs cont =>
          simp [Item.mk.sizeOf_spec] at hsz
  | succ n ih =>
      intro item hsz hwf extra
      match item with
      | .mk id attrs cont =>
        cases cont with
        | none =>
            rw [wfItem] at hwf
            simp only [Bool.and_eq_true, decide_eq_true_eq,
              Bool.not_eq_true'] at hwf
            obtain ⟨⟨⟨hid, hvalid⟩, hattrs⟩, hcont⟩ := hwf
            have hc : createItem reg id =
                some (Item.mk id []
                  (if (reg id).isContainer then some [] else none)) := by
              simp [createItem, hvalid]
            have hbody : saveItemBody (Item.mk id attrs none) ++ extra =
                serAttrs attrs ++ 0 :: extra := by
              simp [saveItemBody]
            have hu : unserializeAttrLoop (reg id).isContainer
                (saveItemBody (Item.mk id attrs none) ++ extra) [] =
                (true, attrs, 0, extra) := by
              rw [hbody, unser_ser_term _ attrs hattrs extra []]
              simp
            rw [Item.id, loadFreshD_plain hc hcont hu, applyAttrs_nil attrs hattrs]
        | some cs =>
            rw [wfItem] at hwf
            simp only [Bool.and_eq_true, decide_eq_true_eq] at hwf
            obtain ⟨⟨⟨hid, hvalid⟩, hattrs⟩, ⟨hcont, hlen⟩, hwfs⟩ := hwf
            have hc : createItem reg id =
                some (Item.mk id []
                  (if (reg id).isContainer then some [] else none)) := by
              simp [createItem, hvalid]
            have hbody : saveItemBody (Item.mk id attrs (some cs)) ++ extra =
                serAttrs attrs ++ ATTR_CONTAINER_ITEMS ::
                  (write32 cs.length ++
                    (saveItems cs.reverse ++ 0 :: extra)) := by
              simp [saveItemBody, saveItemsRev_eq_saveItems_reverse,
                List.append_assoc]
            have hu : unserializeAttrLoop (reg id).isContainer
                (saveItemBody (Item.mk id attrs (some cs)) ++ extra) [] =
                (true, attrs, cs.length, saveItems cs.reverse ++ 0 :: extra) := by
              rw [hbody, hcont, unser_ser_cont attrs hattrs cs.length _ []]
              simp [Nat.mod_eq_of_lt hlen]
            have hys : ∀ y ∈ cs.reverse, y.id < 65536 ∧
                ∀ extra2, loadFreshD reg y.id (saveItemBody y ++ extra2) =
                  (true, some y, extra2) := by
              intro y hy
              have hmem : y ∈ cs := List.mem_reverse.mp hy
              have hwy : wfItem reg y = true := wfItems_mem hwfs y hmem
              have hszy : sizeOf y ≤ n := by
                have h1 : sizeOf y < sizeOf cs := List.sizeOf_lt_of_mem hmem
                have h2 : sizeOf (Item.mk id attrs (some cs)) =
                    1 + sizeOf id + sizeOf attrs + (1 + sizeOf cs) := by
                  simp [Item.mk.sizeOf_spec]
                omega
              refine ⟨?_, fun extra2 => ih y hszy hwy extra2⟩
              match y with
              | .mk idy attrsy conty =>
                  rw [wfItem.eq_def] at hwy
                  simp only [Bool.and_eq_true, decide_eq_true_eq] at hwy
                  simpa [Item.id] using hwy.1.1.1
            have hcc : loadContainerND reg cs.length
                (saveItems cs.reverse ++ 0 :: extra) [] = (true, cs, extra) := by
              have := loadContainerND_saveItems reg cs.reverse hys [] extra
              simpa using this
            rw [Item.id,
              loadFreshD_cont_ok hc hcont hu hcc, applyAttrs_nil attrs hattrs]

/-- A live tile: `getItemList()` returns null (`none`) or the ordered item
vector. -/
structure Tile where
  items : Option (List Item)

/-- `Tile::internalAddThing` for a loaded item, abstracting stack-position
bookkeeping as an append (insertion order preserved). -/
def tileAdd (t : Tile) (it : Item) : Tile :=
  Tile.mk (some ((t.items.getD []) ++ [it]))

/-- Which arm of `loadItem` handled the record (observable control flow). -/
inductive LBranch where
  | readFail
  | guardReject
  | fresh
  | matched
  | dummy
deriving DecidableEq

/-- Observable outcome of one top-level `loadItem` call on a tile parent:
return value, resulting tile, remaining stream, sleeper guid passed to
`g_game().removeBedSleeper` (if any), branch taken, and the fresh item
appended to the tile (if any). -/
structure HLoad where
  ok : Bool
  tile : Tile
  rest : List Nat
  removedSleeper : Option Nat
  branch : LBranch
  created : Option Item

/-- The stationary-item scan condition of `loadItem` (first structural match
wins): exact id match, forward-transform match (`m_transformOnUse`
non-zero and equal to the existing id), door kind match, or bed kind
match. -/
def matchCond (reg : Reg) (recId : Nat) (it : Item) : Bool :=
  it.id == recId ||
    (!((reg recId).m_transformOnUse == 0) &&
      it.id == (reg recId).m_transformOnUse) ||
    ((reg recId).isDoor && (reg it.id).isDoor) ||
    ((reg recId).isBed && (reg it.id).isBed)

/-- Scan an item list for the first match, returning the items before it,
the match, and the items after it. -/
def scanList (reg : Reg) (recId : Nat) :
    List Item → Option (List Item × Item × List Item)
  | [] => none
  | it :: rest =>
    if matchCond reg recId it then some ([], it, rest)
    else
      match scanList reg recId rest with
      | none => none
      | some (pre, f, post) => some (it :: pre, f, post)

/-- The scan over `tile->getItemList()` (no list means nothing to scan). -/
def scanFind (reg : Reg) (recId : Nat) :
    Option (List Item) → Option (List Item × Item × List Item)
  | none => none
  | some items => scanList reg recId items

/-- `IOMapSerialize::loadItem` with a root-tile parent
(`parent->getParent() == nullptr`, so the local `tile` is non-null):
read the id, apply the legacy bed guard, then either the fresh-item
branch, the stationary reconciliation scan with in-place mutation and
`transformItem`, or the throwaway-dummy branch with its bed-sleeper
release. -/
def loadItemOnTile (reg : Reg) (isHouseItem : Bool) (tile : Tile)
    (s : List Nat) : HLoad :=
  match read16 s with
  | none => ⟨false, tile, s, none, .readFail, none⟩
  | some (id, r0) =>
    if isHouseItem = true ∧ (reg id).isBed = true ∧ id < NEW_BEDS_START_ID then
      ⟨false, tile, r0, none, .guardReject, none⟩
    else if (reg id).moveable = true ∨ (reg id).isCarpet = true ∨
        (reg id).isBed = true then
      match loadFreshD reg id r0 with
      | (false, _, r) => ⟨false, tile, r, none, .fresh, none⟩
      | (true, none, r) => ⟨true, tile, r, none, .fresh, none⟩
      | (true, some it, r) => ⟨true, tileAdd tile it, r, none, .fresh, some it⟩
    else
      match scanFind reg id tile.items with
      | some (pre, found, post) =>
        match unserializeAttrLoop (reg found.id).isContainer r0 [] with
        | (aok, rattrs, cnt, r1) =>
          if aok then
            if (reg found.id).isContainer then
              match loadContainerND reg cnt r1 (found.cont.getD []) with
              | (true, cs, r2) =>
                  ⟨true, Tile.mk (some (pre ++
                      Item.mk id (applyAttrs found.attrs rattrs) (some cs) ::
                        post)),
                    r2, none, .matched, none⟩
              | (false, part, r2) =>
                  ⟨false, Tile.mk (some (pre ++
                      Item.mk found.id (applyAttrs found.attrs rattrs)
                        (some part) :: post)),
                    r2, none, .matched, none⟩
            else
              ⟨true, Tile.mk (some (pre ++
                  Item.mk id (applyAttrs found.attrs rattrs) found.cont ::
                    post)),
                r1, none, .matched, none⟩
          else
            ⟨true, Tile.mk (some (pre ++
                Item.mk found.id (applyAttrs found.attrs rattrs) found.cont ::
                  post)),
              r1, none, .matched, none⟩
      | none =>
        match createItem reg id with
        | none => ⟨true, tile, r0, none, .dummy, none⟩
        | some _ =>
          match unserializeAttrLoop (reg id).isContainer r0 [] with
          | (aok, rattrs, cnt, r1) =>
            if (reg id).isContainer then
              match loadContainerND reg cnt r1 [] with
              | (true, _, r2) => ⟨true, tile, r2, none, .dummy, none⟩
              | (false, _, r2) => ⟨false, tile, r2, none, .dummy, none⟩
            else
              if (reg id).isBed = true ∧ getSleeper (applyAttrs [] rattrs) ≠ 0
              then
                ⟨true, tile, r1, some (getSleeper (applyAttrs [] rattrs)),
                  .dummy, none⟩
              else ⟨true, tile, r1, none, .dummy, none⟩

/-- The `while (item_count--) loadItem(propStream, tile, true);` loop of
`loadHouseItems`: the return value of every `loadItem` call is ignored and
the loop always runs `item_count` times; the third component records the
sequence of return values (one per call made). -/
def loadItemsLoop (reg : Reg) : Nat → Tile → List Nat →
    Tile × List Nat × List Bool
  | 0, t, s => (t, s, [])
  | n + 1, t, s =>
    let r := loadItemOnTile reg true t s
    let r2 := loadItemsLoop reg n r.tile r.rest
    (r2.1, r2.2.1, r.ok :: r2.2.2)

/-- Tile position `(x:u16, y:u16, z:u8)`. -/
structure Position where
  x : Nat
  y : Nat
  z : Nat
deriving DecidableEq

def posBytes (p : Position) : List Nat :=
  write16 p.x ++ write16 p.y ++ write8 p.z

/-- `Map::getTile` view of the world: tiles by position. -/
abbrev GameMap := Position → Option Tile

/-- One iteration of the `loadHouseItems` row loop: decode the position
prefix, look up the live tile (skip the row when either fails), decode the
u32 item count and run the item loop. -/
def processRow (reg : Reg) (m : GameMap) (data : List Nat) : GameMap :=
  match read16 data with
  | none => m
  | some (x, r1) =>
    match read16 r1 with
    | none => m
    | some (y, r2) =>
      match read8 r2 with
      | none => m
      | some (z, r3) =>
        match m ⟨x, y, z⟩ with
        | none => m
        | some tile =>
          match read32 r3 with
          | none => m
          | some (cnt, r4) =>
            fun p =>
              if p = ⟨x, y, z⟩ then some (loadItemsLoop reg cnt tile r4).1
              else m p

/-- `IOMapSerialize::loadHouseItems`: the `do ... while (result->next())`
row loop — every stored row is processed. -/
def loadHouseRows (reg : Reg) (m : GameMap) (rows : List (List Nat)) :
    GameMap :=
  rows.foldl (processRow reg) m

/-- `IOMapSerialize::saveTile`: collect the tile's
persistence-eligible items into a forward_list (push_front, so reversed
order) counting them in a u16, and emit position, u32 count and the items
when any qualified. -/
def saveTile (reg : Reg) (pos : Position) (tile : Tile) : List Nat :=
  match tile.items with
  | none => []
  | some tileItems =>
    let acc := tileItems.foldl
      (fun (a : List Item × Nat) item =>
        if (reg item.id).isSavedToHouses = true then
          (item :: a.1, (a.2 + 1) % 65536)
        else a)
      ([], 0)
    match acc.1 with
    | [] => []
    | _ :: _ => posBytes pos ++ write32 acc.2 ++ saveItems acc.1

/-- Definition following the specification wording for the snapshot row
(claim C7): `position(x:u16,y:u16,z:u8) ++ item_count:u32 ++ item_count ×
encoded_item`, written only when some item qualifies, with the count field
holding the number of qualifying items. -/
def specTileBlob (reg : Reg) (pos : Position) (tile : Tile) : List Nat :=
  match tile.items with
  | none => []
  | some tileItems =>
    let qual := tileItems.filter (fun it => (reg it.id).isSavedToHouses)
    if qual.isEmpty then []
    else posBytes pos ++ write32 qual.length ++ saveItems qual.reverse

/-- As `specTileBlob` but with the count field reduced modulo 2^16 (the
behaviour forced by the u16 accumulator in `saveTile`). -/
def specTileBlobTrunc (reg : Reg) (pos : Position) (tile : Tile) : List Nat :=
  match tile.items with
  | none => []
  | some tileItems =>
    let qual := tileItems.filter (fun it => (reg it.id).isSavedToHouses)
    if qual.isEmpty then []
    else posBytes pos ++ write32 (qual.length % 65536) ++ saveItems qual.reverse

/-- `IOMapSerialize::loadHouseInfo`, owner handling for one stored house
row: returns (owner whose items are transferred via
`setTransferPlayerHouseItems`, if any; the owner finally set). -/
def loadHouseOwner (isTransferOnRestart : Bool) (owner : Nat)
    (newOwner : Int) : Option Nat × Nat :=
  if isTransferOnRestart = true ∧ 0 ≤ newOwner then
    (some owner, if newOwner = 0 then 0 else newOwner.toNat)
  else (none, owner)

/-! Decay scheduler.  Only the class declaration (decay.hpp: `decayMap :
phmap::flat_hash_map<int64_t, std::vector<std::shared_ptr<Item>>>`,
`startDecay`, `stopDecay`) is in the sources; the behaviour is modelled
from the spec. -/

/-- Modelled from the spec: insert an item into the bucket for a tick,
creating the bucket if absent (items appended in insertion order). -/
def bucketInsert : List (Int × List Nat) → Int → Nat → List (Int × List Nat)
  | [], t, i => [(t, [i])]
  | (t2, is2) :: bs, t, i =>
    if t2 = t then (t2, is2 ++ [i]) :: bs
    else (t2, is2) :: bucketInsert bs t i

/-- Modelled from the spec: remove one occurrence of an item from the
bucket keyed by a tick (no-op when the bucket is absent). -/
def bucketRemove : List (Int × List Nat) → Int → Nat → List (Int × List Nat)
  | [], _, _ => []
  | (t2, is2) :: bs, t, i =>
    if t2 = t then (t2, is2.erase i) :: bs
    else (t2, is2) :: bucketRemove bs t i

/-- Modelled from the spec: the decay scheduler state — `decayMap` as an
association list of (expiry tick, scheduled items), plus the per-item
scheduled tick the item itself records (its duration-timestamp attribute),
which `stopDecay` uses to locate the bucket. -/
structure DecayState where
  buckets : List (Int × List Nat)
  sched : Nat → Option Int

def emptyDecay : DecayState := ⟨[], fun _ => none⟩

/-- Modelled from the spec: `Decay::stopDecay` — removes the item from its
bucket if present; a no-op if the item was never scheduled. -/
def stopDecay (s : DecayState) (i : Nat) : DecayState :=
  match s.sched i with
  | none => s
  | some t =>
      ⟨bucketRemove s.buckets t i,
        fun j => if j = i then none else s.sched j⟩

/-- Modelled from the spec: `Decay::startDecay` — an item already scheduled
is first removed from its old bucket, then inserted into the bucket for the
expiry tick computed from its decay duration (the tick is a parameter
here). -/
def startDecay (s : DecayState) (i : Nat) (tick : Int) : DecayState :=
  let s2 := stopDecay s i
  ⟨bucketInsert s2.buckets tick i,
    fun j => if j = i then some tick else s2.sched j⟩

/-- Total number of occurrences of an item across all buckets. -/
def occT (bs : List (Int × List Nat)) (i : Nat) : Nat :=
  (bs.map (fun b => b.2.count i)).sum

/-- Occurrences of an item in the buckets keyed by a given tick. -/
def occA (bs : List (Int × List Nat)) (t : Int) (i : Nat) : Nat :=
  ((bs.filter (fun b => b.1 == t)).map (fun b => b.2.count i)).sum

def bucketKeys (bs : List (Int × List Nat)) : List Int := bs.map Prod.fst

/-- Scheduler invariant: bucket keys are distinct, an unscheduled item is in
no bucket, and a scheduled item occurs exactly once overall — in its
scheduled bucket. -/
def WFD (s : DecayState) : Prop :=
  (bucketKeys s.buckets).Nodup ∧
    ∀ i, (s.sched i = none → occT s.buckets i = 0) ∧
      ∀ t, s.sched i = some t →
        occT s.buckets i = 1 ∧ occA s.buckets t i = 1

theorem occA_le_occT (bs : List (Int × List Nat)) (t : Int) (i : Nat) :
    occA bs t i ≤ occT bs i := by
  induction bs with
  | nil => simp [occA, occT]
  | cons b bs ih =>
      by_cases hb : b.1 = t
      · simp [occA, occT, List.filter_cons, hb] at *
        omega
      · simp [occA, occT, List.filter_cons, hb] at *
        omega

theorem count_singleton_eq (i j : Nat) :
    List.count j [i] = (if i = j then 1 else 0) := by
  by_cases hij : i = j
  · subst hij; simp
  · have hji : ¬j = i := fun h => hij h.symm
    simp [List.count_cons, hji, hij]

theorem occT_bucketInsert (bs : List (Int × List Nat)) (t : Int) (i j : Nat) :
    occT (bucketInsert bs t i) j = occT bs j + (if i = j then 1 else 0) := by
  induction bs with
  | nil => simp [bucketInsert, occT, count_singleton_eq]
  | cons b bs ih =>
      match b with
      | (t2, is2) =>
          by_cases ht : t2 = t
          · simp [bucketInsert, ht, occT, List.count_append, count_singleton_eq]
            omega
          · simp [bucketInsert, ht, occT] at *
            omega

theorem occA_bucketInsert_self (bs : List (Int × List Nat)) (t : Int)
    (i j : Nat) :
    occA (bucketInsert bs t i) t j = occA bs t j + (if i = j then 1 else 0) := by
  induction bs with
  | nil => simp [bucketInsert, occA, List.filter_cons, count_singleton_eq]
  | cons b bs ih =>
      match b with
      | (t2, is2) =>
          by_cases ht : t2 = t
          · simp [bucketInsert, ht, occA, List.filter_cons,
              List.count_append, count_singleton_eq]
            omega
          · simp [bucketInsert, ht, occA, List.filter_cons] at *
            omega

theorem occA_bucketInsert_ne (bs : List (Int × List Nat)) {t t2 : Int}
    (ht : t2 ≠ t) (i j : Nat) :
    occA (bucketInsert bs t i) t2 j = occA bs t2 j := by
  have ht2 : ¬t = t2 := fun h => ht h.symm
  induction bs with
  | nil => simp [bucketInsert, occA, List.filter_cons, ht2]
  | cons b bs ih =>
      match b with
      | (t3, is3) =>
          by_cases h3 : t3 = t
          · have h32 : ¬t3 = t2 := by rw [h3]; exact ht2
            simp only [bucketInsert, if_pos h3, occA, List.filter_cons, h32]
            simp [h32]
          · by_cases h32 : t3 = t2
            · simp only [bucketInsert, if_neg h3, occA, List.filter_cons, h32]
              simp only [occA] at ih
              simp [h32, ht, ih]
            · simp only [bucketInsert, if_neg h3, occA, List.filter_cons, h32]
              simp only [occA] at ih
              simp [h32, ht, ih]

theorem bucketKeys_bucketRemove (bs : List (Int × List Nat)) (t : Int)
    (i : Nat) : bucketKeys (bucketRemove bs t i) = bucketKeys bs := by
  induction bs with
  | nil => rfl
  | cons b bs ih =>
      match b with
      | (t2, is2) =>
          by_cases ht : t2 = t <;> simp [bucketRemove, ht, bucketKeys] at * <;>
            exact ih

theorem bucketKeys_bucketInsert_cases (cs : List (Int × List Nat)) (u : Int)
    (k : Nat) :
    bucketKeys (bucketInsert cs u k) = bucketKeys cs ∨
      bucketKeys (bucketInsert cs u k) = bucketKeys cs ++ [u] := by
  induction cs with
  | nil => right; simp [bucketInsert, bucketKeys]
  | cons c cs ih2 =>
      match c with
      | (tc, isc) =>
          by_cases htc : tc = u
          · left
            simp only [bucketInsert, if_pos htc, bucketKeys, List.map_cons]
          · rcases ih2 with h | h
            · left
              simp only [bucketInsert, if_neg htc, bucketKeys, List.map_cons]
              rw [show List.map Prod.fst (bucketInsert cs u k) =
                bucketKeys (bucketInsert cs u k) from rfl, h]
              rfl
            · right
              simp only [bucketInsert, if_neg htc, bucketKeys, List.map_cons]
              rw [show List.map Prod.fst (bucketInsert cs u k) =
                bucketKeys (bucketInsert cs u k) from rfl, h]
              rfl

theorem bucketKeys_bucketInsert (bs : List (Int × List Nat)) (t : Int)
    (i : Nat) (hnd : (bucketKeys bs).Nodup) :
    (bucketKeys (bucketInsert bs t i)).Nodup := by
  induction bs with
  | nil => simp [bucketInsert, bucketKeys]
  | cons b bs ih =>
      match b with
      | (t2, is2) =>
          rw [bucketKeys, List.map_cons, List.nodup_cons] at hnd
          by_cases ht : t2 = t
          · simp only [bucketInsert, if_pos ht, bucketKeys, List.map_cons,
              List.nodup_cons]
            exact hnd
          · simp only [bucketInsert, if_neg ht, bucketKeys, List.map_cons,
              List.nodup_cons]
            refine ⟨?_, ih hnd.2⟩
            show t2 ∉ bucketKeys (bucketInsert bs t i)
            rcases bucketKeys_bucketInsert_cases bs t i with h | h
            · rw [h]; exact hnd.1
            · rw [h]
              intro hmem
              rcases List.mem_append.mp hmem with h1 | h1
              · exact hnd.1 h1
              · exact ht (by simpa using h1)

theorem occT_bucketRemove_other (bs : List (Int × List Nat)) (t : Int)
    {i j : Nat} (hij : j ≠ i) :
    occT (bucketRemove bs t i) j = occT bs j := by
  induction bs with
  | nil => rfl
  | cons b bs ih =>
      match b with
      | (t2, is2) =>
          by_cases ht : t2 = t <;>
            simp [bucketRemove, ht, occT, List.count_erase_of_ne hij] at * <;>
            omega

theorem occA_bucketRemove_other (bs : List (Int × List Nat)) (t t2 : Int)
    {i j : Nat} (hij : j ≠ i) :
    occA (bucketRemove bs t i) t2 j = occA bs t2 j := by
  induction bs with
  | nil => rfl
  | cons b bs ih =>
      match b with
      | (t3, is3) =>
          have herase : (is3.erase i).count j = is3.count j :=
            List.count_erase_of_ne hij is3
          by_cases ht : t3 = t
          · by_cases h32 : t3 = t2
            · simp only [bucketRemove, if_pos ht, occA, List.filter_cons]
              simp [h32, herase]
            · simp only [bucketRemove, if_pos ht, occA, List.filter_cons]
              simp [h32]
          · by_cases h32 : t3 = t2
            · simp only [bucketRemove, if_neg ht, occA, List.filter_cons]
              simp only [occA] at ih
              simp [h32, ih]
            · simp only [bucketRemove, if_neg ht, occA, List.filter_cons]
              simp only [occA] at ih
              simp [h32, ih]

theorem occA_zero_of_not_mem {t : Int} {i : Nat} :
    ∀ {cs : List (Int × List Nat)}, t ∉ bucketKeys cs → occA cs t i = 0 := by
  intro cs
  induction cs with
  | nil => intro _; rfl
  | cons c cs ih2 =>
      match c with
      | (tc, isc) =>
          intro hmem
          rw [bucketKeys, List.map_cons, List.mem_cons] at hmem
          push_neg at hmem
          have htc : ¬tc = t := fun h => hmem.1 h.symm
          simp only [occA, List.filter_cons]
          simp only [occA] at ih2
          simp [htc, ih2 hmem.2]

theorem occT_bucketRemove_self (bs : List (Int × List Nat)) (t : Int)
    (i : Nat) (hnd : (bucketKeys bs).Nodup) :
    occT (bucketRemove bs t i) i = occT bs i - min (occA bs t i) 1 := by
  induction bs with
  | nil => simp [bucketRemove, occT, occA]
  | cons b bs ih =>
      match b with
      | (t2, is2) =>
          rw [bucketKeys, List.map_cons, List.nodup_cons] at hnd
          by_cases ht : t2 = t
          · have hA : occA bs t i = 0 :=
              occA_zero_of_not_mem (by rw [← ht]; exact hnd.1)
            have hcount : (is2.erase i).count i = is2.count i - 1 :=
              List.count_erase_self i is2
            simp only [bucketRemove, if_pos ht, occT, occA, List.filter_cons,
              List.map_cons, List.sum_cons, ht]
            simp only [occA] at hA
            simp [hcount, hA]
            omega
          · simp only [bucketRemove, if_neg ht, occT, occA, List.filter_cons,
              List.map_cons, List.sum_cons]
            simp only [occT, occA] at ih
            have hle := occA_le_occT bs t i
            simp only [occT, occA] at hle
            simp [ht, ih hnd.2]
            omega

theorem wfd_empty : WFD emptyDecay := by
  refine ⟨by simp [emptyDecay, bucketKeys], ?_⟩
  intro i
  exact ⟨fun _ => rfl, fun t ht => by simp [emptyDecay] at ht⟩

theorem stopDecay_spec {s : DecayState} (h : WFD s) (i : Nat) :
    WFD (stopDecay s i) ∧ occT (stopDecay s i).buckets i = 0 := by
  obtain ⟨hnd, hinv⟩ := h
  match hsch : s.sched i with
  | none =>
      refine ⟨⟨?_, ?_⟩, ?_⟩ <;> simp only [stopDecay, hsch]
      · exact hnd
      · exact hinv
      · exact (hinv i).1 hsch
  | some t =>
      have hocc := (hinv i).2 t hsch
      have hT0 : occT (bucketRemove s.buckets t i) i = 0 := by
        rw [occT_bucketRemove_self s.buckets t i hnd, hocc.1, hocc.2]
        decide
      refine ⟨⟨?_, ?_⟩, ?_⟩ <;> simp only [stopDecay, hsch]
      · rw [bucketKeys_bucketRemove]; exact hnd
      · intro j
        by_cases hj : j = i
        · subst hj
          exact ⟨fun _ => hT0, fun t2 ht2 => by simp at ht2⟩
        · constructor
          · intro hn
            simp only [if_neg hj] at hn
            rw [occT_bucketRemove_other s.buckets t hj]
            exact (hinv j).1 hn
          · intro t2 ht2
            simp only [if_neg hj] at ht2
            rw [occT_bucketRemove_other s.buckets t hj,
              occA_bucketRemove_other s.buckets t t2 hj]
            exact (hinv j).2 t2 ht2
      · exact hT0

theorem startDecay_spec {s : DecayState} (h : WFD s) (i : Nat) (tick : Int) :
    WFD (startDecay s i tick) ∧
      occT (startDecay s i tick).buckets i = 1 ∧
      occA (startDecay s i tick).buckets tick i = 1 := by
  obtain ⟨hstop, hT0⟩ := stopDecay_spec h i
  obtain ⟨hnd2, hinv2⟩ := hstop
  have hA0 : occA (stopDecay s i).buckets tick i = 0 := by
    have := occA_le_occT (stopDecay s i).buckets tick i
    omega
  have hT1 : occT (startDecay s i tick).buckets i = 1 := by
    show occT (bucketInsert (stopDecay s i).buckets tick i) i = 1
    rw [occT_bucketInsert]
    simp [hT0]
  have hA1 : occA (startDecay s i tick).buckets tick i = 1 := by
    show occA (bucketInsert (stopDecay s i).buckets tick i) tick i = 1
    rw [occA_bucketInsert_self]
    simp [hA0]
  refine ⟨⟨?_, ?_⟩, hT1, hA1⟩
  · simp only [startDecay]
    exact bucketKeys_bucketInsert _ tick i hnd2
  · intro j
    by_cases hj : j = i
    · subst hj
      refine ⟨fun hn => ?_, fun t2 ht2 => ?_⟩
      · simp [startDecay] at hn
      · simp only [startDecay, if_pos rfl] at ht2
        have : t2 = tick := by
          simpa using (Option.some.injEq _ _ ▸ ht2).symm
        subst this
        exact ⟨hT1, hA1⟩
    · refine ⟨fun hn => ?_, fun t2 ht2 => ?_⟩
      · simp only [startDecay, if_neg hj] at hn
        simp only [startDecay, occT_bucketInsert, if_neg (fun hh : i = j => hj hh.symm)]
        have := (hinv2 j).1 hn
        omega
      · simp only [startDecay, if_neg hj] at ht2
        have hj2 := (hinv2 j).2 t2 ht2
        constructor
        · simp only [startDecay, occT_bucketInsert,
            if_neg (fun hh : i = j => hj hh.symm)]
          omega
        · by_cases htk : t2 = tick
          · subst htk
            simp only [startDecay, occA_bucketInsert_self,
              if_neg (fun hh : i = j => hj hh.symm)]
            omega
          · simp only [startDecay, occA_bucketInsert_ne _ htk]
            exact hj2.2

/-- One scheduler call. -/
inductive DecayOp where
  | start (i : Nat) (tick : Int)
  | stop (i : Nat)

def decayStep (s : DecayState) : DecayOp → DecayState
  | .start i tick => startDecay s i tick
  | .stop i => stopDecay s i

/-- An arbitrary sequence of `startDecay` / `stopDecay` calls from a given
state. -/
def runOps (s : DecayState) (ops : List DecayOp) : DecayState :=
  ops.foldl decayStep s

theorem runOps_wfd : ∀ (ops : List DecayOp) (s : DecayState), WFD s →
    WFD (runOps s ops) := by
  intro ops
  induction ops with
  | nil => intro s h; exact h
  | cons op ops ih =>
      intro s h
      match op with
      | .start i tick => exact ih _ (startDecay_spec h i tick).1
      | .stop i => exact ih _ (stopDecay_spec h i).1

theorem runOps_append (s : DecayState) (a b : List DecayOp) :
    runOps s (a ++ b) = runOps (runOps s a) b := by
  simp [runOps, List.foldl_append]

theorem wfItem_mk {reg : Reg} {id : Nat} {attrs : List (Nat × Nat)}
    {cont : Option (List Item)}
    (h : wfItem reg (Item.mk id attrs cont) = true) :
    id < 65536 ∧ (reg id).valid = true ∧ wfAttrs attrs = true ∧
      (match cont with
       | some cs => (reg id).isContainer = true ∧ cs.length < 4294967296 ∧
           wfItems reg cs = true
       | none => (reg id).isContainer = false) := by
  cases cont with
  | none =>
      rw [wfItem] at h
      simp only [Bool.and_eq_true, decide_eq_true_eq, Bool.not_eq_true'] at h
      exact ⟨h.1.1.1, h.1.1.2, h.1.2, h.2⟩
  | some cs =>
      rw [wfItem] at h
      simp only [Bool.and_eq_true, decide_eq_true_eq] at h
      exact ⟨h.1.1.1, h.1.1.2, h.1.2, h.2.1.1, h.2.1.2, h.2.2⟩

theorem wfItem_id_lt {reg : Reg} {item : Item}
    (h : wfItem reg item = true) : item.id < 65536 := by
  match item with
  | .mk id attrs cont => exact (wfItem_mk h).1

/-- The round-trip corollary at the natural size bound. -/
theorem loadFreshD_rt (reg : Reg) (item : Item) (hwf : wfItem reg item = true)
    (extra : List Nat) :
    loadFreshD reg item.id (saveItemBody item ++ extra) =
      (true, some item, extra) :=
  loadFreshD_roundtrip reg (sizeOf item) item (Nat.le_refl _) hwf extra

/-- Decoding an encoded child list onto existing children reproduces the
originals in front, in original live order. -/
theorem loadContainerND_rt (reg : Reg) (cs : List Item)
    (h : ∀ c ∈ cs, wfItem reg c = true) (acc : List Item)
    (extra : List Nat) :
    loadContainerND reg cs.length (saveItems cs.reverse ++ 0 :: extra) acc =
      (true, cs ++ acc, extra) := by
  have hys : ∀ y ∈ cs.reverse, y.id < 65536 ∧
      ∀ extra2, loadFreshD reg y.id (saveItemBody y ++ extra2) =
        (true, some y, extra2) := by
    intro y hy
    have hwy := h y (List.mem_reverse.mp hy)
    exact ⟨wfItem_id_lt hwy, fun extra2 => loadFreshD_rt reg y hwy extra2⟩
  have := loadContainerND_saveItems reg cs.reverse hys acc extra
  simpa using this

theorem unser_body_none (reg : Reg) (id : Nat) (attrs : List (Nat × Nat))
    (hattrs : wfAttrs attrs = true) (hcont : (reg id).isContainer = false)
    (extra : List Nat) :
    unserializeAttrLoop (reg id).isContainer
      (saveItemBody (Item.mk id attrs none) ++ extra) [] =
      (true, attrs, 0, extra) := by
  have hbody : saveItemBody (Item.mk id attrs none) ++ extra =
      serAttrs attrs ++ 0 :: extra := by
    simp [saveItemBody]
  rw [hbody, unser_ser_term _ attrs hattrs extra []]
  simp

theorem unser_body_some (reg : Reg) (id : Nat) (attrs : List (Nat × Nat))
    (cs : List Item) (hattrs : wfAttrs attrs = true)
    (hcont : (reg id).isContainer = true) (hlen : cs.length < 4294967296)
    (extra : List Nat) :
    unserializeAttrLoop (reg id).isContainer
      (saveItemBody (Item.mk id attrs (some cs)) ++ extra) [] =
      (true, attrs, cs.length, saveItems cs.reverse ++ 0 :: extra) := by
  have hbody : saveItemBody (Item.mk id attrs (some cs)) ++ extra =
      serAttrs attrs ++ ATTR_CONTAINER_ITEMS ::
        (write32 cs.length ++ (saveItems cs.reverse ++ 0 :: extra)) := by
    simp [saveItemBody, saveItemsRev_eq_saveItems_reverse, List.append_assoc]
  rw [hbody, hcont, unser_ser_cont attrs hattrs cs.length _ []]
  simp [Nat.mod_eq_of_lt hlen]

theorem read16_saveItem {reg : Reg} {item : Item}
    (hwf : wfItem reg item = true) (extra : List Nat) :
    read16 (saveItem item ++ extra) =
      some (item.id, saveItemBody item ++ extra) := by
  rw [show saveItem item ++ extra =
      write16 item.id ++ (saveItemBody item ++ extra) by
    simp [saveItem, List.append_assoc]]
  rw [read16_write16, Nat.mod_eq_of_lt (wfItem_id_lt hwf)]

/-- The qualifying-item fold of `saveTile`, in closed form. -/
theorem saveTile_foldl (reg : Reg) :
    ∀ (its : List Item) (a : List Item) (c : Nat), c < 65536 →
      its.foldl (fun (a : List Item × Nat) item =>
        if (reg item.id).isSavedToHouses = true then
          (item :: a.1, (a.2 + 1) % 65536)
        else a) (a, c) =
      ((its.filter (fun it => (reg it.id).isSavedToHouses)).reverse ++ a,
        (c + (its.filter (fun it => (reg it.id).isSavedToHouses)).length) %
          65536) := by
  intro its
  induction its with
  | nil =>
      intro a c hc
      simp [Nat.mod_eq_of_lt hc]
  | cons it its ih =>
      intro a c hc
      by_cases hq : (reg it.id).isSavedToHouses = true
      · rw [List.foldl_cons, if_pos hq,
          ih (it :: a) ((c + 1) % 65536) (Nat.mod_lt _ (by omega)),
          List.filter_cons, if_pos (by simpa using hq)]
        simp only [List.reverse_cons, List.append_assoc,
          List.singleton_append, List.length_cons, Prod.mk.injEq]
        refine ⟨trivial, ?_⟩
        omega
      · rw [List.foldl_cons, if_neg hq, ih a c hc,
          List.filter_cons, if_neg (by simpa using hq)]

/-- `saveTile` equals the spec row layout with the count field reduced
modulo 2^16. -/
theorem saveTile_closed (reg : Reg) (pos : Position) (tile : Tile) :
    saveTile reg pos tile = specTileBlobTrunc reg pos tile := by
  match htile : tile.items with
  | none => rw [saveTile, specTileBlobTrunc, htile]
  | some its =>
      rw [saveTile, specTileBlobTrunc, htile]
      simp only []
      rw [saveTile_foldl reg its [] 0 (by omega)]
      simp only [List.append_nil, Nat.zero_add]
      cases hq : its.filter (fun it => (reg it.id).isSavedToHouses) with
      | nil => simp
      | cons x xs =>
          have hne : ∃ y ys, (x :: xs).reverse = y :: ys := by
            cases hr : (x :: xs).reverse with
            | nil => simp at hr
            | cons y ys => exact ⟨y, ys, rfl⟩
          obtain ⟨y, ys, hys⟩ := hne
          rw [hys]
          simp

/-! Concrete registries, items and worlds used by witnesses and
counterexamples. -/

/-- A stationary, persistence-eligible, non-container type (door-like
fixture without door capability relevance). -/
def stationaryType : ItemType :=
  ⟨true, false, false, false, false, false, 0, true⟩

def reg0 : Reg := fun _ => stationaryType

def itm1 : Item := Item.mk 1 [] none

def bedType : ItemType := ⟨true, false, false, true, false, false, 0, true⟩

def moveableType : ItemType := ⟨true, true, false, false, false, false, 0, true⟩

/-- A movable container type (a sack). -/
def sackType : ItemType := ⟨true, true, false, false, false, true, 0, true⟩

def reg4 : Reg := fun id => if id = 100 then moveableType else bedType

def regM : Reg := fun id => if id = 100 then sackType else moveableType

/-- The end-to-end scenario item: a sack (type 100) holding items of types
200 and 201, with one generic attribute. -/
def itemSack : Item :=
  Item.mk 100 [(5, 7)] (some [Item.mk 200 [] none, Item.mk 201 [] none])

def bigTile : Tile := Tile.mk (some (List.replicate 65536 itm1))

theorem saveItem_itm1 : saveItem itm1 = [1, 0, 0] := by
  simp [saveItem, saveItemBody, serAttrs, write16, Item.id, itm1]

/-- Claim C5: a record whose type is a bed kind with id below the legacy
threshold 30000, loaded in a house-item context, always yields decode
failure immediately after the id — regardless of the attribute payload that
follows. -/
theorem claim5_bed_guard (reg : Reg) (tile : Tile) (s : List Nat) (id : Nat)
    (r0 : List Nat) (h16 : read16 s = some (id, r0))
    (hbed : (reg id).isBed = true) (hid : id < NEW_BEDS_START_ID) :
    loadItemOnTile reg true tile s =
      ⟨false, tile, r0, none, LBranch.guardReject, none⟩ := by
  unfold loadItemOnTile
  rw [h16]
  dsimp only
  rw [if_pos ⟨rfl, hbed, hid⟩]

/-- Witness for C5: a bed record with id 5 followed by arbitrary payload
bytes is rejected with the payload unread. -/
theorem claim5_bed_guard_witness :
    loadItemOnTile reg4 true (Tile.mk (some [])) [5, 0, 77, 88] =
      ⟨false, Tile.mk (some []), [77, 88], none, LBranch.guardReject, none⟩ :=
  claim5_bed_guard reg4 (Tile.mk (some [])) [5, 0, 77, 88] 5 [77, 88]
    (by simp [read16]) (by simp [reg4, bedType]) (by simp [NEW_BEDS_START_ID])

/-- `SaveHouseItemsGuard`, per tile: run `saveTile` into the stream and add
a `(house_id, data)` row only when the accumulated blob is non-empty. -/
def saveHouseRow (reg : Reg) (houseId : Nat) (pos : Position) (tile : Tile) :
    Option (Nat × List Nat) :=
  let blob := saveTile reg pos tile
  if blob.isEmpty then none else some (houseId, blob)

theorem posBytes_ne_nil (pos : Position) : posBytes pos ≠ [] := by
  simp [posBytes, write16, write8]

/-- Claim C7 (amended): the save pass writes a row exactly when the tile
has a qualifying item, laid out as position (x:u16, y:u16, z:u8), then a
u32 count field holding the number of qualifying items reduced modulo
2^16, then one encoded item per qualifying item (in reversed tile order);
the count field equals the number of encoded items only when at most 65535
items qualify. -/
theorem claim7_row_layout (reg : Reg) (houseId : Nat) (pos : Position)
    (tile : Tile) :
    saveTile reg pos tile = specTileBlobTrunc reg pos tile ∧
    (saveHouseRow reg houseId pos tile = none ↔
      (match tile.items with
       | none => True
       | some its =>
           its.filter (fun it => (reg it.id).isSavedToHouses) = [])) := by
  refine ⟨saveTile_closed reg pos tile, ?_⟩
  rw [saveHouseRow, saveTile_closed]
  match htile : tile.items with
  | none =>
      unfold specTileBlobTrunc
      rw [htile]
      simp
  | some its =>
      unfold specTileBlobTrunc
      rw [htile]
      dsimp only
      cases hq : its.filter (fun it => (reg it.id).isSavedToHouses) with
      | nil => simp
      | cons x xs =>
          try simp only [List.isEmpty_cons, Bool.false_eq_true, if_false]
          have hblob : ∀ (b c : List Nat),
              ((posBytes pos ++ b ++ c).isEmpty = true) → False := by
            intro b c h
            have h2 := List.isEmpty_iff.mp h
            rcases List.append_eq_nil.mp h2 with ⟨h3, _⟩
            rcases List.append_eq_nil.mp h3 with ⟨h4, _⟩
            exact posBytes_ne_nil pos h4
          rw [if_neg (hblob _ _)]
          simp

/-- Counterexample for C7 as stated: on a tile with 65536 qualifying items
the u16 counter wraps to 0, so the blob differs from the spec layout whose
u32 count field holds the number of encoded items (65536). -/
theorem bigTile_filter : (List.replicate 65536 itm1).filter
    (fun it => (reg0 it.id).isSavedToHouses) = List.replicate 65536 itm1 := by
  rw [List.filter_eq_self]
  intro a _
  simp [reg0, stationaryType]

theorem bigTile_isEmpty : (List.replicate 65536 itm1).isEmpty = false := by
  rw [show (65536 : Nat) = 65535 + 1 from rfl, List.replicate_succ]
  rfl

theorem bigTile_saveTile_eq : saveTile reg0 ⟨1, 2, 3⟩ bigTile =
    posBytes ⟨1, 2, 3⟩ ++ write32 0 ++
      saveItems (List.replicate 65536 itm1).reverse := by
  rw [saveTile_closed]
  unfold specTileBlobTrunc
  dsimp only [bigTile]
  rw [bigTile_filter, bigTile_isEmpty]
  rw [if_neg (by simp)]
  rw [List.length_replicate, Nat.mod_self]

theorem bigTile_specBlob_eq : specTileBlob reg0 ⟨1, 2, 3⟩ bigTile =
    posBytes ⟨1, 2, 3⟩ ++ write32 65536 ++
      saveItems (List.replicate 65536 itm1).reverse := by
  unfold specTileBlob
  dsimp only [bigTile]
  rw [bigTile_filter, bigTile_isEmpty]
  rw [if_neg (by simp)]
  rw [List.length_replicate]

theorem blob_count_field_ne (S : List Nat) :
    ¬(posBytes ⟨1, 2, 3⟩ ++ write32 0 ++ S =
      posBytes ⟨1, 2, 3⟩ ++ write32 65536 ++ S) := by
  intro h
  simp [posBytes, write16, write8, write32] at h

/-- Counterexample for C7 as stated: on a tile with 65536 qualifying items
the u16 counter wraps to 0, so the blob written by `saveTile` differs from
the spec row layout whose u32 count field holds the number of encoded
items (65536). -/
theorem claim7_counterexample :
    saveTile reg0 ⟨1, 2, 3⟩ bigTile ≠ specTileBlob reg0 ⟨1, 2, 3⟩ bigTile := by
  rw [bigTile_saveTile_eq, bigTile_specBlob_eq]
  exact blob_count_field_ne (saveItems (List.replicate 65536 itm1).reverse)

/-- Claim C8: the owner-transfer decision table of `loadHouseInfo` — flag
off or negative stored `new_owner`: owner set directly from the stored
owner; flag on and `new_owner` zero: items transferred to the current
owner's claim, then owner cleared; flag on and `new_owner` positive: items
transferred, then owner set to `new_owner`. -/
theorem claim8_owner_table (flag : Bool) (owner : Nat) (newOwner : Int) :
    ((flag = false ∨ newOwner < 0) →
      loadHouseOwner flag owner newOwner = (none, owner)) ∧
    (flag = true → newOwner = 0 →
      loadHouseOwner flag owner newOwner = (some owner, 0)) ∧
    (flag = true → 0 < newOwner →
      loadHouseOwner flag owner newOwner = (some owner, newOwner.toNat)) := by
  refine ⟨?_, ?_, ?_⟩
  · rintro (hf | hneg)
    · subst hf
      simp [loadHouseOwner]
    · rw [loadHouseOwner, if_neg]
      rintro ⟨_, hge⟩
      omega
  · intro hf h0
    subst hf
    subst h0
    simp [loadHouseOwner]
  · intro hf hpos
    subst hf
    rw [loadHouseOwner, if_pos ⟨rfl, by omega⟩]
    rw [if_neg (by omega)]

/-- Witness for C8: all four rows of the decision table at concrete
inputs. -/
theorem claim8_owner_table_witness :
    loadHouseOwner false 7 5 = (none, 7) ∧
    loadHouseOwner true 7 (-1) = (none, 7) ∧
    loadHouseOwner true 7 0 = (some 7, 0) ∧
    loadHouseOwner true 7 42 = (some 7, 42) := by
  refine ⟨(claim8_owner_table false 7 5).1 (Or.inl rfl),
    (claim8_owner_table true 7 (-1)).1 (Or.inr (by decide)),
    (claim8_owner_table true 7 0).2.1 rfl rfl, ?_⟩
  have h := (claim8_owner_table true 7 42).2.2 rfl (by decide)
  simpa using h

/-- Claim C9: for every sequence of `startDecay`/`stopDecay` calls from the
initial state, an item is in at most one decay bucket; after `stopDecay` it
is in none; after two consecutive `startDecay` calls it is in exactly one
bucket — the one for the latest expiry tick. -/
theorem claim9_bucket_invariant (ops : List DecayOp) (i : Nat) (t1 t2 : Int) :
    occT (runOps emptyDecay ops).buckets i ≤ 1 ∧
    occT (runOps emptyDecay (ops ++ [DecayOp.stop i])).buckets i = 0 ∧
    occT (runOps emptyDecay
      (ops ++ [DecayOp.start i t1, DecayOp.start i t2])).buckets i = 1 ∧
    occA (runOps emptyDecay
      (ops ++ [DecayOp.start i t1, DecayOp.start i t2])).buckets t2 i = 1 := by
  have hwf : WFD (runOps emptyDecay ops) := runOps_wfd ops emptyDecay wfd_empty
  have h2 : runOps emptyDecay (ops ++ [DecayOp.start i t1, DecayOp.start i t2]) =
      startDecay (startDecay (runOps emptyDecay ops) i t1) i t2 := by
    rw [runOps_append]
    simp [runOps, decayStep]
  refine ⟨?_, ?_, ?_, ?_⟩
  · obtain ⟨hnd, hinv⟩ := hwf
    match hs : (runOps emptyDecay ops).sched i with
    | none => rw [(hinv i).1 hs]; omega
    | some t =>
        have := ((hinv i).2 t hs).1
        omega
  · rw [runOps_append]
    have : runOps (runOps emptyDecay ops) [DecayOp.stop i] =
        stopDecay (runOps emptyDecay ops) i := by
      simp [runOps, decayStep]
    rw [this]
    exact (stopDecay_spec hwf i).2
  · rw [h2]
    exact (startDecay_spec (startDecay_spec hwf i t1).1 i t2).2.1
  · rw [h2]
    exact (startDecay_spec (startDecay_spec hwf i t1).1 i t2).2.2

/-- Claim C10: the `saveTile` count field is accumulated in a u16, so the
stored u32 count field equals the number of qualifying items modulo 2^16;
when more than 65535 items qualify, the stored count disagrees with the
number of items actually encoded after it. -/
theorem claim10_count_truncation (reg : Reg) (pos : Position) (tile : Tile)
    (its : List Item) (htile : tile.items = some its)
    (hne : its.filter (fun it => (reg it.id).isSavedToHouses) ≠ []) :
    read32 (List.drop 5 (saveTile reg pos tile)) =
      some ((its.filter (fun it => (reg it.id).isSavedToHouses)).length % 65536,
        saveItems (its.filter (fun it => (reg it.id).isSavedToHouses)).reverse) ∧
    (65535 < (its.filter (fun it => (reg it.id).isSavedToHouses)).length →
      (its.filter (fun it => (reg it.id).isSavedToHouses)).length % 65536 ≠
        (its.filter (fun it => (reg it.id).isSavedToHouses)).length) := by
  constructor
  · rw [saveTile_closed, specTileBlobTrunc, htile]
    simp only []
    rw [if_neg (by simpa [List.isEmpty_iff] using hne)]
    have hlen : (posBytes pos).length = 5 := by
      simp [posBytes, write16, write8]
    rw [List.append_assoc,
      show (5 : Nat) = (posBytes pos).length from hlen.symm,
      List.drop_left, read32_write32]
    congr 1
    congr 1
    have hm : (its.filter (fun it => (reg it.id).isSavedToHouses)).length %
        65536 < 65536 := Nat.mod_lt _ (by omega)
    omega
  · intro hbig
    have hm : (its.filter (fun it => (reg it.id).isSavedToHouses)).length %
        65536 < 65536 := Nat.mod_lt _ (by omega)
    omega

/-- Witness for C10: a tile with a single qualifying item stores count 1
followed by that item's encoding. -/
theorem claim10_count_truncation_witness :
    read32 (List.drop 5 (saveTile reg0 ⟨1, 2, 3⟩ (Tile.mk (some [itm1])))) =
      some (1, saveItems [itm1]) := by
  have h := (claim10_count_truncation reg0 ⟨1, 2, 3⟩ (Tile.mk (some [itm1]))
    [itm1] rfl (by simp [reg0, stationaryType])).1
  simpa [reg0, stationaryType] using h

/-- Claim C1 (amended): for every well-formed item whose type is movable, a
carpet or a bed kind (the fresh-create class; beds additionally not hitting
the legacy id guard), encoding via `saveItem` and decoding the bytes onto a
tile reproduces the item exactly — type ids, attribute values, and for
containers (to any nesting depth) the child count and the original live
child order — appending it to the tile and consuming exactly the encoded
bytes. -/
theorem claim1_roundtrip (reg : Reg) (item : Item) (t0 : List Item)
    (extra : List Nat) (hwf : wfItem reg item = true)
    (hfresh : (reg item.id).moveable = true ∨ (reg item.id).isCarpet = true ∨
      (reg item.id).isBed = true)
    (hguard : ¬((reg item.id).isBed = true ∧ item.id < NEW_BEDS_START_ID)) :
    loadItemOnTile reg true (Tile.mk (some t0)) (saveItem item ++ extra) =
      ⟨true, Tile.mk (some (t0 ++ [item])), extra, none, LBranch.fresh,
        some item⟩ := by
  have h16 := read16_saveItem hwf extra
  have hrt := loadFreshD_rt reg item hwf extra
  unfold loadItemOnTile
  rw [h16]
  dsimp only
  rw [if_neg (fun hc => hguard ⟨hc.2.1, hc.2.2⟩)]
  rw [if_pos hfresh]
  rw [hrt]
  dsimp only
  simp [tileAdd]

/-- Witness for C1: the end-to-end scenario — a movable sack (type 100)
holding items of types 200 and 201 round-trips onto an empty tile with both
children in original live order. -/
theorem claim1_roundtrip_witness :
    loadItemOnTile regM true (Tile.mk (some [])) (saveItem itemSack) =
      ⟨true, Tile.mk (some [itemSack]), [], none, LBranch.fresh,
        some itemSack⟩ := by
  have hwf : wfItem regM itemSack = true := by
    simp [wfItem, wfItems, wfAttrs, keyMem, itemSack, regM, sackType,
      moveableType, Item.id, ATTR_CONTAINER_ITEMS]
  have h := claim1_roundtrip regM itemSack [] [] hwf
    (Or.inl (by simp [regM, sackType, itemSack, Item.id]))
    (by simp [regM, sackType, itemSack, Item.id])
  simpa using h

/-- Counterexample for C1 as stated: a stationary (non-movable, non-carpet,
non-bed) item encoded with `saveItem` and decoded onto an identical empty
tile is NOT reproduced — the reconciliation scan finds no match and the
record is consumed into a discarded throwaway, leaving the tile empty. -/
theorem claim1_counterexample :
    loadItemOnTile reg0 true (Tile.mk (some [])) (saveItem itm1) =
      ⟨true, Tile.mk (some []), [], none, LBranch.dummy, none⟩ ∧
    Tile.mk (some ([] : List Item)) ≠ Tile.mk (some [itm1]) := by
  constructor
  · rw [saveItem_itm1]
    rfl
  · simp

/-- Claim C6: decoding a well-formed record of a stationary type
(non-movable, non-carpet, non-bed) whose tile scan finds no match consumes
the attribute bytes and any nested container bytes into a discarded
throwaway item, returns success with the tile unchanged — and releases the
sleeper through `removeBedSleeper` exactly when the throwaway is a
non-container bed with a recorded non-zero sleeper (impossible here, since
bed-kind records never reach this branch). -/
theorem claim6_throwaway (reg : Reg) (isH : Bool) (tile : Tile)
    (item : Item) (extra : List Nat) (hwf : wfItem reg item = true)
    (hmov : (reg item.id).moveable = false)
    (hcarp : (reg item.id).isCarpet = false)
    (hbed : (reg item.id).isBed = false)
    (hscan : scanFind reg item.id tile.items = none) :
    loadItemOnTile reg isH tile (saveItem item ++ extra) =
      ⟨true, tile, extra,
        (if (reg item.id).isContainer = false ∧ (reg item.id).isBed = true ∧
            getSleeper (applyAttrs [] item.attrs) ≠ 0
         then some (getSleeper (applyAttrs [] item.attrs)) else none),
        LBranch.dummy, none⟩ := by
  have h16 := read16_saveItem hwf extra
  unfold loadItemOnTile
  rw [h16]
  dsimp only
  rw [if_neg (fun hc => by rw [hbed] at hc; exact absurd hc.2.1 (by simp))]
  rw [if_neg (by rw [hmov, hcarp, hbed]; simp)]
  rw [hscan]
  dsimp only
  match item, hwf, hbed with
  | .mk id attrs cont, hwf, hbed =>
    obtain ⟨hid, hvalid, hattrs, hrest⟩ := wfItem_mk hwf
    simp only [Item.id] at hbed ⊢
    have hc : createItem reg id =
        some (Item.mk id [] (if (reg id).isContainer then some [] else none)) := by
      simp [createItem, hvalid]
    rw [hc]
    dsimp only
    cases cont with
    | none =>
        have hcont : (reg id).isContainer = false := hrest
        rw [unser_body_none reg id attrs hattrs hcont extra]
        dsimp only
        rw [if_neg (by simp [hcont])]
        rw [if_neg (by rw [hbed]; simp)]
        rw [if_neg (by rw [hbed]; simp)]
    | some cs =>
        obtain ⟨hcont, hlen, hwfs⟩ := hrest
        rw [unser_body_some reg id attrs cs hattrs hcont hlen extra]
        dsimp only
        rw [if_pos hcont]
        rw [loadContainerND_rt reg cs (wfItems_mem hwfs) [] extra]
        dsimp only
        rw [if_neg (by rw [hcont]; simp)]

/-- Witness for C6: a stationary record with one attribute and two trailing
stream bytes is consumed exactly, leaves the empty tile unchanged and
releases no sleeper. -/
theorem claim6_throwaway_witness :
    loadItemOnTile reg0 true (Tile.mk (some []))
        (saveItem (Item.mk 1 [(5, 7)] none) ++ [9, 9]) =
      ⟨true, Tile.mk (some []), [9, 9], none, LBranch.dummy, none⟩ := by
  have hwf : wfItem reg0 (Item.mk 1 [(5, 7)] none) = true := by
    simp [wfItem, wfAttrs, keyMem, reg0, stationaryType,
      ATTR_CONTAINER_ITEMS]
  have h := claim6_throwaway reg0 true (Tile.mk (some []))
    (Item.mk 1 [(5, 7)] none) [9, 9] hwf
    (by simp [reg0, stationaryType])
    (by simp [reg0, stationaryType])
    (by simp [reg0, stationaryType])
    rfl
  simpa [reg0, stationaryType, Item.id] using h

/-- Claim C2 (amended): for a record loaded onto a root tile (past the
legacy guard), the fresh-item branch is taken exactly when the record's
type is movable, a carpet or a bed kind (the "no target tile" disjunct of
the source condition applies only to nested container parents, never to a
tile parent — a tile without an item list still goes to the reconciliation
scan); when the fresh branch creates an item it is appended to the tile,
and outside the fresh branch no item is ever created. -/
theorem claim2_branch (reg : Reg) (isH : Bool) (tile : Tile) (s : List Nat)
    (id : Nat) (r0 : List Nat) (h16 : read16 s = some (id, r0))
    (hguard : ¬(isH = true ∧ (reg id).isBed = true ∧ id < NEW_BEDS_START_ID)) :
    ((loadItemOnTile reg isH tile s).branch = LBranch.fresh ↔
      ((reg id).moveable = true ∨ (reg id).isCarpet = true ∨
        (reg id).isBed = true)) ∧
    (∀ it, (loadItemOnTile reg isH tile s).created = some it →
      (loadItemOnTile reg isH tile s).tile = tileAdd tile it) ∧
    (¬((reg id).moveable = true ∨ (reg id).isCarpet = true ∨
        (reg id).isBed = true) →
      (loadItemOnTile reg isH tile s).created = none) := by
  unfold loadItemOnTile
  rw [h16]
  dsimp only
  rw [if_neg hguard]
  by_cases hbr : (reg id).moveable = true ∨ (reg id).isCarpet = true ∨
      (reg id).isBed = true
  · rw [if_pos hbr]
    match hl : loadFreshD reg id r0 with
    | (false, opt, r) =>
        dsimp only
        exact ⟨by simp [hbr], by simp, fun hn => absurd hbr hn⟩
    | (true, none, r) =>
        dsimp only
        exact ⟨by simp [hbr], by simp, fun hn => absurd hbr hn⟩
    | (true, some it, r) =>
        dsimp only
        refine ⟨by simp [hbr], ?_, fun hn => absurd hbr hn⟩
        intro it2 hit
        simp only [Option.some.injEq] at hit
        rw [hit]
  · rw [if_neg hbr]
    refine ⟨⟨fun hfr => ?_, fun hcond => absurd hcond hbr⟩, ?_, fun _ => ?_⟩
    · exfalso
      revert hfr
      repeat' split
      all_goals simp
    · intro it hit
      exfalso
      revert hit
      repeat' split
      all_goals simp
    · repeat' split
      all_goals simp

/-- Witness for C2: the branch characterization at a concrete movable
record on an empty tile. -/
theorem claim2_branch_witness :
    ((loadItemOnTile reg4 true (Tile.mk (some [])) [100, 0, 0]).branch =
        LBranch.fresh ↔
      ((reg4 100).moveable = true ∨ (reg4 100).isCarpet = true ∨
        (reg4 100).isBed = true)) ∧
    (∀ it, (loadItemOnTile reg4 true (Tile.mk (some []))
        [100, 0, 0]).created = some it →
      (loadItemOnTile reg4 true (Tile.mk (some [])) [100, 0, 0]).tile =
        tileAdd (Tile.mk (some [])) it) ∧
    (¬((reg4 100).moveable = true ∨ (reg4 100).isCarpet = true ∨
        (reg4 100).isBed = true) →
      (loadItemOnTile reg4 true (Tile.mk (some []))
        [100, 0, 0]).created = none) :=
  claim2_branch reg4 true (Tile.mk (some [])) [100, 0, 0] 100 [0] rfl
    (by simp [reg4, moveableType])

/-- Counterexample for C2 as stated: a stationary record decoded onto a
tile with NO item list does not create a fresh item — it enters the
reconciliation path, finds nothing and is discarded as a throwaway, leaving
the tile without an item list. -/
theorem claim2_counterexample :
    loadItemOnTile reg0 true (Tile.mk none) [1, 0, 0] =
      ⟨true, Tile.mk none, [], none, LBranch.dummy, none⟩ ∧
    LBranch.dummy ≠ LBranch.fresh := by
  exact ⟨rfl, by simp⟩

/-- Claim C3 (amended): attribute-deserialization failure returns decode
failure only on the fresh-item path — hence for every container child,
which are always fresh-created, the failure propagates and the whole
containing load fails; in the matched-existing-item branch the failure is
only logged and `loadItem` still returns true (with the stream left where
the attribute reader stopped); in the throwaway branch the result of
attribute deserialization is ignored (a non-container throwaway always
returns true). -/
theorem claim3_attr_failure :
    (∀ (reg : Reg) (id : Nat) (s r1 : List Nat) (it0 : Item)
        (attrs : List (Nat × Nat)) (cnt : Nat),
      createItem reg id = some it0 →
      unserializeAttrLoop (reg id).isContainer s [] = (false, attrs, cnt, r1) →
      loadFreshD reg id s = (false, none, r1)) ∧
    (∀ (reg : Reg) (n id : Nat) (s r rf : List Nat) (acc : List Item),
      read16 s = some (id, r) → loadFreshD reg id r = (false, none, rf) →
      loadContainerND reg (n + 1) s acc = (false, acc, rf)) ∧
    (∀ (reg : Reg) (isH : Bool) (tile : Tile) (s : List Nat) (id : Nat)
        (r0 : List Nat) (pre post : List Item) (found : Item)
        (attrs : List (Nat × Nat)) (cnt : Nat) (r1 : List Nat),
      read16 s = some (id, r0) →
      ¬(isH = true ∧ (reg id).isBed = true ∧ id < NEW_BEDS_START_ID) →
      ¬((reg id).moveable = true ∨ (reg id).isCarpet = true ∨
        (reg id).isBed = true) →
      scanFind reg id tile.items = some (pre, found, post) →
      unserializeAttrLoop (reg found.id).isContainer r0 [] =
        (false, attrs, cnt, r1) →
      (loadItemOnTile reg isH tile s).ok = true ∧
        (loadItemOnTile reg isH tile s).rest = r1) ∧
    (∀ (reg : Reg) (isH : Bool) (tile : Tile) (s : List Nat) (id : Nat)
        (r0 : List Nat) (it0 : Item),
      read16 s = some (id, r0) →
      ¬(isH = true ∧ (reg id).isBed = true ∧ id < NEW_BEDS_START_ID) →
      ¬((reg id).moveable = true ∨ (reg id).isCarpet = true ∨
        (reg id).isBed = true) →
      scanFind reg id tile.items = none →
      createItem reg id = some it0 →
      (reg id).isContainer = false →
      (loadItemOnTile reg isH tile s).ok = true) := by
  refine ⟨?_, ?_, ?_, ?_⟩
  · intro reg id s r1 it0 attrs cnt hc hu
    exact loadFreshD_attrfail hc hu
  · intro reg n id s r rf acc h16 hf
    exact loadContainerND_succ_childfail reg n id s r rf acc h16 hf
  · intro reg isH tile s id r0 pre post found attrs cnt r1 h16 hguard hbr
      hscan hu
    unfold loadItemOnTile
    rw [h16]
    dsimp only
    rw [if_neg hguard, if_neg hbr, hscan]
    dsimp only
    rw [hu]
    dsimp only
    rw [if_neg (by simp)]
    exact ⟨rfl, rfl⟩
  · intro reg isH tile s id r0 it0 h16 hguard hbr hscan hc hcont
    unfold loadItemOnTile
    rw [h16]
    dsimp only
    rw [if_neg hguard, if_neg hbr, hscan]
    dsimp only
    rw [hc]
    dsimp only
    match hu : unserializeAttrLoop (reg id).isContainer r0 [] with
    | (aok, rattrs, cnt, r1) =>
        dsimp only
        rw [if_neg (by simp [hcont])]
        split
        · rfl
        · rfl

/-- Witness for C3: parts of the amended claim at concrete inputs — a
fresh-path decode with a truncated attribute fails, and a matched-branch
decode with the same truncated attribute still returns true. -/
theorem claim3_attr_failure_witness :
    loadFreshD reg0 1 [6] = (false, none, []) ∧
    (loadItemOnTile reg0 true (Tile.mk (some [itm1])) [1, 0, 6]).ok = true := by
  constructor
  · exact claim3_attr_failure.1 reg0 1 [6] [] (Item.mk 1 [] none) [] 0
      (by simp [createItem, reg0, stationaryType]) rfl
  · exact (claim3_attr_failure.2.2.1 reg0 true (Tile.mk (some [itm1]))
      [1, 0, 6] 1 [6] [] [] itm1 [] 0 []
      rfl
      (by simp [reg0, stationaryType])
      (by simp [reg0, stationaryType])
      rfl
      rfl).1

/-- Counterexample for C3 as stated: in the matched-existing-item branch an
attribute-deserialization failure does NOT make `loadItem` return false —
the record id 1 matches the existing tile item, the attribute reader fails
on the truncated tag 5, yet the call returns true. -/
theorem claim3_counterexample :
    (unserializeAttrLoop (reg0 itm1.id).isContainer [5] []).1 = false ∧
    (loadItemOnTile reg0 true (Tile.mk (some [itm1])) [1, 0, 5]).ok = true := by
  exact ⟨rfl, rfl⟩

/-- The world used by the C4 counterexample: one empty house tile at
(10, 20, 7). -/
def m0 : GameMap :=
  fun p => if p = ⟨10, 20, 7⟩ then some (Tile.mk (some [])) else none

/-- A stored row for tile (10, 20, 7) declaring 2 items: a legacy bed
record (id 5, rejected by the guard) followed by a movable item record
(id 100). -/
def row4 : List Nat := [10, 0, 20, 0, 7, 2, 0, 0, 0, 5, 0, 100, 0, 0]

/-- Claim C4 (amended): decode failures abort nothing — the row loop
processes every stored row in order regardless of earlier failures, and
within a row the `while (item_count--)` loop always makes exactly
`item_count` decode attempts, each continuing from wherever the previous
attempt left the stream. -/
theorem claim4_row_loop :
    (∀ (reg : Reg) (m : GameMap) (r : List Nat) (rs : List (List Nat)),
      loadHouseRows reg m (r :: rs) = loadHouseRows reg (processRow reg m r) rs) ∧
    (∀ (reg : Reg) (n : Nat) (t : Tile) (s : List Nat),
      ((loadItemsLoop reg n t s).2.2).length = n) := by
  constructor
  · intro reg m r rs
    rfl
  · intro reg n
    induction n with
    | zero => intro t s; rfl
    | succ n ih =>
        intro t s
        simp [loadItemsLoop, ih]

/-- Counterexample for C4 as stated ("no further items of the failed row
are decoded"): in `row4` the first record fails (legacy bed guard), yet the
loop goes on and decodes the second record from the remaining stream,
appending the movable item of type 100 to the tile. -/
theorem claim4_counterexample :
    (processRow reg4 m0 row4) ⟨10, 20, 7⟩ =
      some (Tile.mk (some [Item.mk 100 [] none])) ∧
    some (Tile.mk (some [Item.mk 100 [] none])) ≠ some (Tile.mk (some [])) := by
  constructor
  · have hload : loadFreshD reg4 100 [0] =
        (true, some (Item.mk 100 [] none), []) := by
      have hb : ([0] : List Nat) = saveItemBody (Item.mk 100 [] none) ++ [] := by
        simp [saveItemBody, serAttrs]
      have hwf : wfItem reg4 (Item.mk 100 [] none) = true := by
        simp [wfItem, wfAttrs, reg4, moveableType]
      have h := loadFreshD_rt reg4 (Item.mk 100 [] none) hwf []
      rw [hb]
      simpa [Item.id] using h
    have hstep1 : loadItemOnTile reg4 true (Tile.mk (some []))
        [5, 0, 100, 0, 0] =
        ⟨false, Tile.mk (some []), [100, 0, 0], none, LBranch.guardReject,
          none⟩ := rfl
    have hstep2 : loadItemOnTile reg4 true (Tile.mk (some [])) [100, 0, 0] =
        ⟨true, Tile.mk (some [Item.mk 100 [] none]), [], none, LBranch.fresh,
          some (Item.mk 100 [] none)⟩ := by
      unfold loadItemOnTile
      rw [show read16 [100, 0, 0] = some (100, [0]) from rfl]
      dsimp only
      rw [if_neg (by simp [reg4, moveableType])]
      rw [if_pos (Or.inl (by simp [reg4, moveableType]))]
      rw [hload]
      dsimp only
      simp [tileAdd]
    simp [processRow, row4, read16, read8, read32, m0, loadItemsLoop,
      hstep1, hstep2]
  · simp

end CanaryPersist
